import Mathlib

/-!
# shareddata: schema-driven code generator (`src/shareddata/main.go`)

A shallow embedding of the generator's pure core.  Go strings are byte
sequences, so `GoString` is a list of bytes; Go string literals are written
`go "..."`, the UTF-8 bytes of the literal.  A run-time panic (slice or index
out of range) is modelled by `none`.
-/

namespace Shareddata

/-! ## Go strings -/

/-- A Go `string`: an immutable sequence of bytes. -/
abbrev GoString := List UInt8

/-- The bytes of a Go string literal (UTF-8 encoding of its text). -/
def go (s : String) : GoString := s.data.flatMap String.utf8EncodeChar

/-- Go `strings.HasPrefix(s, prefix)`. -/
def HasPrefix (s pre : GoString) : Bool := pre.isPrefixOf s

/-! ### `strings.TrimSpace`

`strings.TrimSpace` removes every leading and every trailing white-space rune,
as defined by `unicode.IsSpace`.  The runes with that property and their UTF-8
encodings are

* U+0009..U+000D, U+0020: the single bytes `09`..`0D`, `20`;
* U+0085, U+00A0: `C2 85`, `C2 A0`;
* U+1680: `E1 9A 80`;
* U+2000..U+200A, U+2028, U+2029, U+202F: `E2 80 80`..`E2 80 8A`, `E2 80 A8`,
  `E2 80 A9`, `E2 80 AF`;
* U+205F: `E2 81 9F`;  U+3000: `E3 80 80`.

Bytes that are not part of a well-formed encoding decode to U+FFFD, which is
not white space, so a rune is trimmed exactly when its bytes are one of the
encodings above.
-/

/-- One-byte white space: `\t \n \v \f \r` and the space. -/
def sp1 (a : UInt8) : Bool :=
  a == 0x09 || a == 0x0A || a == 0x0B || a == 0x0C || a == 0x0D || a == 0x20

/-- Two-byte white space: U+0085 and U+00A0. -/
def sp2 (a b : UInt8) : Bool :=
  a == 0xC2 && (b == 0x85 || b == 0xA0)

/-- Three-byte white space: U+1680, U+2000..U+200A, U+2028, U+2029, U+202F,
U+205F and U+3000. -/
def sp3 (a b c : UInt8) : Bool :=
  (a == 0xE1 && b == 0x9A && c == 0x80) ||
  (a == 0xE2 && b == 0x80 &&
    ((0x80 ≤ c && c ≤ 0x8A) || c == 0xA8 || c == 0xA9 || c == 0xAF)) ||
  (a == 0xE2 && b == 0x81 && c == 0x9F) ||
  (a == 0xE3 && b == 0x80 && c == 0x80)

/-- Number of bytes of the white-space rune the string starts with, `0` when it
starts with none. -/
def leadSpace : GoString → Nat
  | [] => 0
  | [a] => if sp1 a then 1 else 0
  | [a, b] => if sp1 a then 1 else if sp2 a b then 2 else 0
  | a :: b :: c :: _ =>
    if sp1 a then 1 else if sp2 a b then 2 else if sp3 a b c then 3 else 0

/-- Number of bytes of the white-space rune that ends the string whose bytes
are given last byte first, `0` when it ends with none. -/
def trailSpaceRev : GoString → Nat
  | [] => 0
  | [c] => if sp1 c then 1 else 0
  | [c, b] => if sp1 c then 1 else if sp2 b c then 2 else 0
  | c :: b :: a :: _ =>
    if sp1 c then 1 else if sp2 b c then 2 else if sp3 a b c then 3 else 0

/-- Repeatedly drop the first `len s` bytes of `s` while `len s` is not `0`,
at most `n` times. -/
def stripN (len : GoString → Nat) : Nat → GoString → GoString
  | 0, s => s
  | n + 1, s => if len s = 0 then s else stripN len n (s.drop (len s))

/-- Drop the first `len s` bytes of `s` until `len` is `0`; every round
removes a byte, so `s.length` rounds are enough (theorem `strip_unfold`). -/
def strip (len : GoString → Nat) (s : GoString) : GoString :=
  stripN len s.length s

/-- All leading white space removed. -/
def trimLeft (s : GoString) : GoString := strip leadSpace s

/-- All trailing white space removed. -/
def trimRight (s : GoString) : GoString :=
  (strip trailSpaceRev s.reverse).reverse

/-- Go `strings.TrimSpace(s)`. -/
def TrimSpace (s : GoString) : GoString := trimRight (trimLeft s)

/-! ## The type mapper (`main.go` lines 242-260) -/

/-- Source `isList`: the type string begins with `[]`. -/
def isList (tStr : GoString) : Bool := HasPrefix tStr (go "[]")

/-- The `case` list of the `switch` in `getJsonType`. -/
def primitiveNames : List GoString :=
  [go "int", go "int8", go "int16", go "int32", go "int64",
   go "float32", go "float64", go "string", go "bool"]

/-- Source `getJsonType`, with the recursion depth bounded by `fuel`; `none`
when the bound is reached. -/
def getJsonTypeN : Nat → GoString → Option GoString
  | 0, _ => none
  | fuel + 1, tStr0 =>
    let tStr := TrimSpace tStr0
    if tStr ∈ primitiveNames then some tStr
    else if HasPrefix tStr (go "map[") then some tStr
    else if isList tStr then
      (getJsonTypeN fuel (tStr.drop 2)).map (fun r => go "[]" ++ r)
    else some (go "_" ++ tStr ++ go "Json")

/-- Source `getJsonType`: every call chain on `tStr` is shorter than
`tStr.length + 1` (theorem `getJsonTypeN_isSome`). -/
def getJsonType (tStr : GoString) : GoString :=
  (getJsonTypeN (tStr.length + 1) tStr).getD []

/-- The bytes, last byte first, of one white-space rune. -/
def IsSpRev : GoString → Prop
  | [a] => sp1 a = true
  | [b, a] => sp2 a b = true
  | [c, b, a] => sp3 a b c = true
  | _ => False


/-! ## Case mapping and rune counting -/

/-- The Unicode case mappings of the Go library, which `strings.ToUpper` and
`strings.ToLower` apply to a string that has a byte outside ASCII
(`strings.Map(unicode.ToUpper, s)` and `strings.Map(unicode.ToLower, s)`).
The tables are library data; the generator is modelled for every choice of
them. -/
structure CaseTables where
  upper : GoString → GoString
  lower : GoString → GoString

/-- Case tables that leave every string unchanged, for the evaluation of
all-ASCII examples, where the tables are not consulted. -/
def noCaseTables : CaseTables := ⟨fun s => s, fun s => s⟩

/-- Every byte is below `utf8.RuneSelf`. -/
def isASCII (s : GoString) : Bool := s.all (fun c => c < 0x80)

/-- ASCII upper-casing of one byte: `c -= 'a' - 'A'` for `'a' <= c <= 'z'`. -/
def upperByte (c : UInt8) : UInt8 := if 0x61 ≤ c ∧ c ≤ 0x7A then c - 0x20 else c

/-- ASCII lower-casing of one byte: `c += 'a' - 'A'` for `'A' <= c <= 'Z'`. -/
def lowerByte (c : UInt8) : UInt8 := if 0x41 ≤ c ∧ c ≤ 0x5A then c + 0x20 else c

/-- Go `strings.ToUpper(s)`. -/
def ToUpper (ct : CaseTables) (s : GoString) : GoString :=
  if isASCII s then s.map upperByte else ct.upper s

/-- Go `strings.ToLower(s)`. -/
def ToLower (ct : CaseTables) (s : GoString) : GoString :=
  if isASCII s then s.map lowerByte else ct.lower s

/-- Size in bytes of the first rune of `s` as `utf8.DecodeRuneInString`
reports it: `0` for the empty string, `1` for an ASCII byte and for a byte that
does not start a well-formed encoding, else the length of the encoding. -/
def runeLen : GoString → Nat
  | [] => 0
  | s0 :: r =>
    if s0 < 0xC2 ∨ 0xF4 < s0 then 1
    else
      let sz : Nat := if s0 < 0xE0 then 2 else if s0 < 0xF0 then 3 else 4
      let lo : UInt8 := if s0 = 0xE0 then 0xA0 else if s0 = 0xF0 then 0x90 else 0x80
      let hi : UInt8 := if s0 = 0xED then 0x9F else if s0 = 0xF4 then 0x8F else 0xBF
      if r.length + 1 < sz then 1
      else
        match r with
        | [] => 1
        | s1 :: r1 =>
          if s1 < lo ∨ hi < s1 then 1
          else if sz ≤ 2 then 2
          else
            match r1 with
            | [] => 1
            | s2 :: r2 =>
              if s2 < 0x80 ∨ 0xBF < s2 then 1
              else if sz ≤ 3 then 3
              else
                match r2 with
                | [] => 1
                | s3 :: _ => if s3 < 0x80 ∨ 0xBF < s3 then 1 else 4

/-- Number of runes of `s`, counting at most `n` of them. -/
def runeCountN : Nat → GoString → Nat
  | 0, _ => 0
  | n + 1, s => if s = [] then 0 else 1 + runeCountN n (s.drop (runeLen s))

/-- Go `utf8.RuneCountInString(s)`. -/
def RuneCountInString (s : GoString) : Nat := runeCountN s.length s

/-- The `fmt` verb `%-Ns` with `N = width`: `s` padded with spaces on the right
to `width` runes. -/
def padRight (width : Nat) (s : GoString) : GoString :=
  s ++ List.replicate (width - RuneCountInString s) 0x20

/-- Largest width `fmt` accepts in a format string. -/
def fmtMaxWidth : Nat := 1000000

/-! ## Schemas and generator results -/

/-- Source `structInfo` (`main.go` lines 127-132). -/
structure structInfo where
  Name : GoString
  FiledList : List GoString
  TypeList : List GoString
  keyIndex : Int
  deriving DecidableEq

/-- What a generator returns, and the file it leaves behind: the returned file
name, the returned error (`none` for `nil`) and the contents of the output
file (`none` when the file was not created). -/
structure GenResult where
  fileName : GoString
  err : Option GoString
  file : Option GoString
  deriving DecidableEq

def funcFileSuffix : GoString := go "_func.go"
def jsonFileSuffix : GoString := go "_json.go"
def dataCtrlFileSuffix : GoString := go "_data_ctrl.go"
def fileStatement : GoString :=
  go "// Code generated by \"shareddata $GOFILE\"; DO NOT EDIT."

/-- The source expression `strings.ToUpper(s[:1]) + s[1:]`; `s[:1]` panics on
the empty string. -/
def upperFirst (ct : CaseTables) : GoString → Option GoString
  | [] => none
  | c :: r => some (ToUpper ct [c] ++ r)

/-- The slice `s[:1]`, which panics on the empty string. -/
def firstByte : GoString → Option GoString
  | [] => none
  | c :: _ => some [c]

/-- A loop `for index, x := range xs` whose body writes to the output file:
`body index x buf` is the file after the body ran on the file `buf`, `none`
when the body panics. -/
def rangeLoop {α : Type} (body : Nat → α → GoString → Option GoString) :
    Nat → List α → GoString → Option GoString
  | _, [], buf => some buf
  | index, x :: xs, buf => (body index x buf).bind (rangeLoop body (index + 1) xs)

/-- The two lines every generated file starts with: `fileStatement` and the
package clause. -/
def fileHeader (pkgName : GoString) : GoString :=
  fileStatement ++ go "\n" ++ (go "package " ++ pkgName ++ go "\n")

/-! ## The accessor generator (`main.go` lines 135-166) -/

/-- Body of the inner loop of `generateFunc` (lines 152-161): the accessor of
one field. -/
def funcField (ct : CaseTables) (rootName : GoString) (sInfo : structInfo) (sName : GoString)
    (index : Nat) (filedName : GoString) (buf : GoString) : Option GoString := do
  let fName ← upperFirst ct filedName
  let typeStr ← sInfo.TypeList.get? index
  let buf :=
    if rootName = sInfo.Name then
      buf ++ (go "\nfunc (" ++ sName ++ go " *" ++ sInfo.Name ++ go ") Get" ++ fName ++
        go "() " ++ typeStr ++ go " \x7b\n")
    else
      buf ++ (go "\nfunc (" ++ sName ++ go " " ++ sInfo.Name ++ go ") Get" ++ fName ++
        go "() " ++ typeStr ++ go " \x7b\n")
  let buf := buf ++ (go "\treturn " ++ sName ++ go "." ++ filedName ++ go "\n")
  some (buf ++ go "\x7d\n")

/-- Body of the outer loop of `generateFunc` (lines 148-162): the banner and
the accessors of one schema. -/
def funcStruct (ct : CaseTables) (rootName : GoString) (sInfo : structInfo)
    (buf : GoString) : Option GoString := do
  let buf := buf ++ (go "\n/*----- " ++ sInfo.Name ++ go " -----*/\n")
  let sName := ToLower ct (← firstByte sInfo.Name)
  rangeLoop (funcField ct rootName sInfo sName) 0 sInfo.FiledList buf

/-- Source `generateFunc`.  `createErr` is the outcome of `os.Create`: `none`
when the file is created, else the text of the error.  Writes to the created
file are taken to succeed (the source ignores their results). -/
def generateFunc (ct : CaseTables) (createErr : Option GoString) (pkgName : GoString)
    (sInfoList : List structInfo) : Option GenResult := do
  let fileName := pkgName ++ funcFileSuffix
  let rootName ← upperFirst ct pkgName
  match createErr with
  | some e =>
    some ⟨fileName,
      some (go "generateFunc create file[" ++ fileName ++ go "] Err:" ++ e), none⟩
  | none =>
    let buf ← rangeLoop (fun _ sInfo => funcStruct ct rootName sInfo) 0 sInfoList
      (fileHeader pkgName)
    some ⟨fileName, none, some buf⟩

/-! ## The mirror and conversion generator (`main.go` lines 169-240) -/

/-- The first inner loop of `generateJsonReader` (lines 182-192): the longest
field name and the longest mapped type, in bytes. -/
def maxLens (sInfo : structInfo) : Nat → List GoString → Nat × Nat → Option (Nat × Nat)
  | _, [], acc => some acc
  | index, filedName :: rest, (fLen, tLen) => do
    let fLen := if filedName.length > fLen then filedName.length else fLen
    let tStr := getJsonType (← sInfo.TypeList.get? index)
    let tLen := if tStr.length > tLen then tStr.length else tLen
    maxLens sInfo (index + 1) rest (fLen, tLen)

/-- Body of the second inner loop of `generateJsonReader` (lines 199-202): one
field of the mirror struct.  A width above `fmtMaxWidth` makes `fmt` reject the
format string; the model stops there with `none`. -/
def jsonField (ct : CaseTables) (sInfo : structInfo) (fLen tLen : Nat)
    (index : Nat) (filedName : GoString) (buf : GoString) : Option GoString := do
  let fName ← upperFirst ct filedName
  let typeStr ← sInfo.TypeList.get? index
  if fmtMaxWidth < fLen ∨ fmtMaxWidth < tLen then none
  else
    some (buf ++ (go "\t" ++ padRight fLen fName ++ go " " ++
      padRight tLen (getJsonType typeStr) ++ go " `json:\"" ++ ToLower ct filedName ++
      go "\"`\n"))

/-- Body of the third inner loop of `generateJsonReader` (lines 215-228): the
conversion statements of one field. -/
def convertField (ct : CaseTables) (sInfo : structInfo) (sName : GoString)
    (index : Nat) (filedName : GoString) (buf : GoString) : Option GoString := do
  let fName ← upperFirst ct filedName
  let typeStr ← sInfo.TypeList.get? index
  if typeStr ≠ getJsonType typeStr then
    if isList typeStr then
      let buf := buf ++ (go "\tdata." ++ filedName ++ go " = make(" ++ typeStr ++ go ", 0)\n")
      let buf := buf ++ (go "\tfor _, e := range " ++ sName ++ go "." ++ fName ++ go " \x7b\n")
      let buf := buf ++ (go "\t\tdata." ++ filedName ++ go " = append(data." ++ filedName ++
        go ", e._convert())\n")
      some (buf ++ go "\t\x7d\n")
    else
      some (buf ++ (go "\tdata." ++ filedName ++ go " = " ++ sName ++ go "." ++ fName ++
        go "._convert()\n"))
  else
    some (buf ++ (go "\tdata." ++ filedName ++ go " = " ++ sName ++ go "." ++ fName ++ go "\n"))

/-- Body of the outer loop of `generateJsonReader` (lines 181-236): the mirror
struct and the conversion function of one schema. -/
def jsonStruct (ct : CaseTables) (rootName : GoString) (sInfo : structInfo)
    (buf : GoString) : Option GoString := do
  let (fLen, tLen) ← maxLens sInfo 0 sInfo.FiledList (0, 0)
  let jsonName := ToLower ct sInfo.Name
  let buf := buf ++ (go "\n/*----- " ++ jsonName ++ go "_json -----*/\n")
  let buf := buf ++ (go "\ntype _" ++ jsonName ++ go "Json struct \x7b\n")
  let buf ← rangeLoop (jsonField ct sInfo fLen tLen) 0 sInfo.FiledList buf
  let buf := buf ++ go "\x7d\n"
  let sName ← firstByte jsonName
  let buf :=
    if rootName = sInfo.Name then
      buf ++ (go "\nfunc (" ++ sName ++ go " _" ++ jsonName ++ go "Json) _convert() *" ++
        sInfo.Name ++ go " \x7b\n")
    else
      buf ++ (go "\nfunc (" ++ sName ++ go " _" ++ jsonName ++ go "Json) _convert() " ++
        sInfo.Name ++ go " \x7b\n")
  let buf := buf ++ (go "\tdata := new(" ++ sInfo.Name ++ go ")\n")
  let buf ← rangeLoop (convertField ct sInfo sName) 0 sInfo.FiledList buf
  let buf :=
    if rootName = sInfo.Name then buf ++ go "\treturn data\n"
    else buf ++ go "\treturn *data\n"
  some (buf ++ go "\x7d\n")

/-- Source `generateJsonReader`; `createErr` as in `generateFunc`. -/
def generateJsonReader (ct : CaseTables) (createErr : Option GoString) (pkgName : GoString)
    (sInfoList : List structInfo) : Option GenResult := do
  let fileName := pkgName ++ jsonFileSuffix
  let rootName ← upperFirst ct pkgName
  match createErr with
  | some e =>
    some ⟨fileName,
      some (go "generateJsonReader create file[" ++ (pkgName ++ jsonFileSuffix) ++
        go "] Err:" ++ e), none⟩
  | none =>
    let buf ← rangeLoop (fun _ sInfo => jsonStruct ct rootName sInfo) 0 sInfoList
      (fileHeader pkgName)
    some ⟨fileName, none, some buf⟩

/-! ## The dataset controller generator (`main.go` lines 263-359) -/

/-- Source `getStruct`: the first schema named `sName`, `none` for `nil`. -/
def getStruct (sName : GoString) : List structInfo → Option structInfo
  | [] => none
  | sInfo :: rest => if sName = sInfo.Name then some sInfo else getStruct sName rest

/-- The index-insertion statement of the emitted load loop (lines 338-342);
`FiledList[keyIndex]` panics when `keyIndex` is not below the length. -/
def indexStatement (rsInfo : structInfo) : Option GoString :=
  if rsInfo.keyIndex ≥ 0 then do
    let key ← rsInfo.FiledList.get? rsInfo.keyIndex.toNat
    some (go "\t\tds.indexs[obj." ++ key ++ go "] = index\n")
  else
    some (go "\t\tds.indexs[index+1] = index\n")

/-- The text `generateDataCtrl` writes before the index-insertion statement
(lines 277-336). -/
def dataCtrlHead (pkgName rootName : GoString) : GoString :=
  fileHeader pkgName ++
  go "import (\n\t\"encoding/json\"\n\t\"os\"\n)\n" ++
  (go "\nconst JsonFile = \"" ++ pkgName ++ go ".json\"\n") ++
  go "\ntype DataSet struct \x7b\n" ++
  (go "\tset []*" ++ rootName ++ go " // 数据集合\n") ++
  go "\tindexs map[any]int // 索引\n" ++
  go "\x7d\n" ++
  go "\nfunc (s *DataSet) Len() int \x7b\n\treturn len(s.set)\n\x7d\n" ++
  (go "\nfunc (s *DataSet) Load(key any) *" ++ rootName ++
    go " \x7b\n\tif i, ok := s.indexs[key]; ok \x7b\n\t\treturn s.set[i]\n\t\x7d\n\treturn nil\n\x7d\n") ++
  go "\nfunc (s *DataSet) Clear() \x7b\n\ts.set = nil\n\ts.indexs = make(map[any]int, 0)\n\x7d\n" ++
  go "\nfunc _newDataSet() *DataSet \x7b\n" ++
  go "\tds := new(DataSet)\n" ++
  (go "\tds.set = make([]*" ++ rootName ++ go ", 0)\n") ++
  go "\tds.indexs = make(map[any]int)\n" ++
  go "\treturn ds\n" ++
  go "\x7d\n" ++
  go "\nfunc Load(jsonFile string) (*DataSet, error) \x7b\n" ++
  go "\tif _, err := os.Stat(jsonFile); err != nil \x7b\t\treturn nil, err\n\t\x7d\n" ++
  go "\tjsonBuf, err := os.ReadFile(jsonFile)\n\t if err != nil \x7b\t\treturn nil, err\n\t\x7d\n" ++
  (go "\tjsonDatas := make([]*_" ++ pkgName ++ go "Json, 0)\n") ++
  go "\terr := json.Unmarshal(jsonBuf, &jsonDatas)\n" ++
  go "\tif err != nil \x7b\n" ++
  go "\t\treturn nil, err\n" ++
  go "\t\x7d\n" ++
  go "\tds := _newDataSet()\n" ++
  go "\tfor index, data := range jsonDatas \x7b\n" ++
  go "\t\tobj := data._convert()\n" ++
  go "\t\tds.set = append(ds.set, obj)\n"

/-- The text `generateDataCtrl` writes after the index-insertion statement
(lines 343-345). -/
def dataCtrlTail : GoString :=
  go "\t\x7d\n" ++ go "\treturn ds, nil\n" ++ go "\x7d\n"

/-- Source `generateDataCtrl`; `createErr` as in `generateFunc`. -/
def generateDataCtrl (ct : CaseTables) (createErr : Option GoString) (pkgName : GoString)
    (sInfoList : List structInfo) : Option GenResult := do
  let fileName := pkgName ++ dataCtrlFileSuffix
  let rootName ← upperFirst ct pkgName
  match getStruct rootName sInfoList with
  | none =>
    some ⟨fileName,
      some (go "generateDataCtrl Err: missing root struct:" ++ rootName), none⟩
  | some rsInfo =>
    match createErr with
    | some e =>
      some ⟨fileName,
        some (go "generateDataCtrl create file[" ++ (pkgName ++ jsonFileSuffix) ++
          go "] Err:" ++ e), none⟩
    | none =>
      let stmt ← indexStatement rsInfo
      some ⟨fileName, none, some (dataCtrlHead pkgName rootName ++ stmt ++ dataCtrlTail)⟩


/-! ## Reference descriptions and example schemas -/

/-- The string `s` with its first byte upper-cased (`strings.ToUpper(s[:1]) +
s[1:]` on a non-empty `s`). -/
def capitalize (ct : CaseTables) (s : GoString) : GoString :=
  ToUpper ct (s.take 1) ++ s.drop 1

/-- The text of one accessor as the accessor generator is described: receiver
variable `sName` of type `recvType`, name `Get` followed by the capitalized
field name, result type `typeStr`, and a body that returns the field. -/
def accessorText (ct : CaseTables) (sName recvType filedName typeStr : GoString) : GoString :=
  go "\nfunc (" ++ sName ++ go " " ++ recvType ++ go ") Get" ++ capitalize ct filedName ++
    go "() " ++ typeStr ++ go " \x7b\n" ++
  (go "\treturn " ++ sName ++ go "." ++ filedName ++ go "\n") ++
  go "\x7d\n"

/-- The banner comment `generateFunc` writes before the accessors of a
schema. -/
def funcBanner (sInfo : structInfo) : GoString :=
  go "\n/*----- " ++ sInfo.Name ++ go " -----*/\n"

/-- The accessors of one schema as described: one per field, in declaration
order, each on the receiver type `recvType`. -/
def accessorsText (ct : CaseTables) (recvType : GoString) (sInfo : structInfo) : GoString :=
  ((sInfo.FiledList.zip sInfo.TypeList).map (fun p =>
    accessorText ct (ToLower ct (sInfo.Name.take 1)) recvType p.1 p.2)).flatten

/-- A schema whose names are not empty and whose fields all have a declared
type, as the schema analyzer builds them. -/
def structInfo.WellFormed (sInfo : structInfo) : Prop :=
  sInfo.Name ≠ [] ∧ sInfo.FiledList.length ≤ sInfo.TypeList.length ∧
    ∀ f ∈ sInfo.FiledList, f ≠ []

instance (sInfo : structInfo) : Decidable sInfo.WellFormed := by
  unfold structInfo.WellFormed; infer_instance

/-- The package `shop` of the specification's scenario. -/
def shopSchemas : List structInfo :=
  [⟨go "Shop", [go "id", go "name"], [go "int", go "string"], 0⟩,
   ⟨go "Item", [go "sku", go "price"], [go "string", go "float64"], -1⟩]

/-- A package `bar` whose root record has a field of type `[][]Foo`. -/
def nestedSchemas : List structInfo :=
  [⟨go "Foo", [go "a"], [go "int"], -1⟩,
   ⟨go "Bar", [go "xs"], [go "[][]Foo"], -1⟩]

/-- The package `shopData`, whose name has an upper-case letter, with its root
record. -/
def shopDataSchemas : List structInfo :=
  [⟨go "ShopData", [go "id"], [go "int"], -1⟩]


/-- The type string with all of its leading `[]` prefixes removed. -/
def stripLists : GoString → GoString
  | a :: b :: r => if a = 0x5B ∧ b = 0x5D then stripLists r else a :: b :: r
  | s => s


/-! ## Reference description of the mirror file -/

/-- Length in bytes of the longest field name of a schema. -/
def fieldWidth (sInfo : structInfo) : Nat :=
  (sInfo.FiledList.map List.length).foldl max 0

/-- Length in bytes of the longest mapped field type of a schema. -/
def typeWidth (sInfo : structInfo) : Nat :=
  ((sInfo.FiledList.zip sInfo.TypeList).map (fun p => (getJsonType p.2).length)).foldl max 0

/-- One field of the mirror struct as described: the capitalized field name,
the mapped type `getJsonType typeStr`, and the lower-cased field name as
serialization key, the first two padded to the widths of the schema. -/
def mirrorFieldText (ct : CaseTables) (sInfo : structInfo) (filedName typeStr : GoString) :
    GoString :=
  go "\t" ++ padRight (fieldWidth sInfo) (capitalize ct filedName) ++ go " " ++
    padRight (typeWidth sInfo) (getJsonType typeStr) ++ go " `json:\"" ++
    ToLower ct filedName ++ go "\"`\n"

/-- The mirror struct of a schema as described: named `_` + lower-cased record
name + `Json`, with one field per schema field, in declaration order. -/
def mirrorStructText (ct : CaseTables) (sInfo : structInfo) : GoString :=
  go "\ntype _" ++ ToLower ct sInfo.Name ++ go "Json struct \x7b\n" ++
    ((sInfo.FiledList.zip sInfo.TypeList).map (fun p =>
      mirrorFieldText ct sInfo p.1 p.2)).flatten ++
    go "\x7d\n"

/-- The conversion statements of one field as `generateJsonReader` writes
them. -/
def convertFieldText (ct : CaseTables) (sName filedName typeStr : GoString) : GoString :=
  if typeStr ≠ getJsonType typeStr then
    if isList typeStr then
      go "\tdata." ++ filedName ++ go " = make(" ++ typeStr ++ go ", 0)\n" ++
      (go "\tfor _, e := range " ++ sName ++ go "." ++ capitalize ct filedName ++ go " \x7b\n") ++
      (go "\t\tdata." ++ filedName ++ go " = append(data." ++ filedName ++
        go ", e._convert())\n") ++
      go "\t\x7d\n"
    else
      go "\tdata." ++ filedName ++ go " = " ++ sName ++ go "." ++ capitalize ct filedName ++
        go "._convert()\n"
  else
    go "\tdata." ++ filedName ++ go " = " ++ sName ++ go "." ++ capitalize ct filedName ++ go "\n"

/-- The conversion function of a schema as `generateJsonReader` writes it. -/
def convertFuncText (ct : CaseTables) (rootName : GoString) (sInfo : structInfo) : GoString :=
  (if rootName = sInfo.Name then
    go "\nfunc (" ++ (ToLower ct sInfo.Name).take 1 ++ go " _" ++ ToLower ct sInfo.Name ++
      go "Json) _convert() *" ++ sInfo.Name ++ go " \x7b\n"
  else
    go "\nfunc (" ++ (ToLower ct sInfo.Name).take 1 ++ go " _" ++ ToLower ct sInfo.Name ++
      go "Json) _convert() " ++ sInfo.Name ++ go " \x7b\n") ++
  (go "\tdata := new(" ++ sInfo.Name ++ go ")\n") ++
  ((sInfo.FiledList.zip sInfo.TypeList).map (fun p =>
    convertFieldText ct ((ToLower ct sInfo.Name).take 1) p.1 p.2)).flatten ++
  (if rootName = sInfo.Name then go "\treturn data\n" else go "\treturn *data\n") ++
  go "\x7d\n"


/-! ## The schema analyzer (`main.go` lines 63-125)

`AnalysisStruct` reads the syntax tree that `parser.ParseFile` returns.  The
model takes what it reads of that tree: the package name and, in the order in
which `ast.Inspect` visits them, the `*ast.TypeSpec` nodes with their fields.
The messages it prints are not modelled. -/

/-- An `*ast.Field` as `AnalysisStruct` reads it: the names it declares
(`field.Names`, empty for an embedded field), the tag literal with its quotes
(`field.Tag.Value`, `none` for a `nil` tag) and `TypeStr`, the text
`printer.Fprint` writes for `field.Type` (`none` when it returns an error). -/
structure Field where
  Names : List GoString
  Tag : Option GoString
  TypeStr : Option GoString
  deriving DecidableEq

/-- An `*ast.TypeSpec` as `AnalysisStruct` reads it: its name and, when its
type is an `*ast.StructType`, the fields of the struct (`s.Fields.List`). -/
structure TypeSpec where
  Name : GoString
  Struct : Option (List Field)
  deriving DecidableEq

/-- The parsed file: the package name `file.Name.Name` and the `TypeSpec`
nodes in the order `ast.Inspect` visits them. -/
structure File where
  Name : GoString
  Specs : List TypeSpec
  deriving DecidableEq

/-- The kinds of `reflect.Kind` the field loop mentions. -/
inductive Kind where
  | Ptr
  | Struct
  | Array
  | UnsafePointer
  deriving DecidableEq

/-- The expression `reflect.TypeOf(file).Kind()`: `file` is an `*ast.File`, a
pointer. -/
def fileKind : Kind := Kind.Ptr

/-- The slice `field.Tag.Value[1 : len(field.Tag.Value)-1]`, which panics on a
string of fewer than two bytes. -/
def tagBody (v : GoString) : Option GoString :=
  if v.length < 2 then none else some ((v.drop 1).take (v.length - 2))

/-- Body of the field loop of `AnalysisStruct` (lines 89-113).  `tagGet` is the
library function `reflect.StructTag.Get`.  The result is `none` for a panic,
`some none` when the closure returns at a type that cannot be printed (line
110), else the schema after the field. -/
def fieldStep (tagGet : GoString → GoString → GoString) (sInfo : structInfo)
    (field : Field) : Option (Option structInfo) :=
  if fileKind = Kind.Struct ∨ fileKind = Kind.Array ∨ fileKind = Kind.UnsafePointer ∨
      field.Names.length = 0 then some (some sInfo)
  else
    match field.Names with
    | [] => none
    | name :: _ =>
      let FiledList := sInfo.FiledList ++ [name]
      let keyIndex : Option Int :=
        match field.Tag with
        | none => some sInfo.keyIndex
        | some v =>
          (tagBody v).map (fun tag =>
            if tagGet tag (go "key") = go "true" then
              if sInfo.keyIndex ≥ 0 then sInfo.keyIndex else (FiledList.length : Int) - 1
            else sInfo.keyIndex)
      match keyIndex with
      | none => none
      | some keyIndex =>
        match field.TypeStr with
        | none => some none
        | some typeName =>
          some (some ⟨sInfo.Name, FiledList, sInfo.TypeList ++ [typeName], keyIndex⟩)

/-- The field loop of `AnalysisStruct` (line 88). -/
def fieldsLoop (tagGet : GoString → GoString → GoString) :
    List Field → structInfo → Option (Option structInfo)
  | [], sInfo => some (some sInfo)
  | field :: rest, sInfo =>
    match fieldStep tagGet sInfo field with
    | none => none
    | some none => some none
    | some (some sInfo) => fieldsLoop tagGet rest sInfo

/-- The closure `AnalysisStruct` passes to `ast.Inspect`, on one `TypeSpec`
(lines 73-122): `none` for a panic, `some none` when nothing is appended to the
schema list, else the appended schema. -/
def inspectTypeSpec (tagGet : GoString → GoString → GoString) (ts : TypeSpec) :
    Option (Option structInfo) :=
  match ts.Struct with
  | none => some none
  | some fields =>
    match fieldsLoop tagGet fields ⟨ts.Name, [], [], -1⟩ with
    | none => none
    | some none => some none
    | some (some sInfo) =>
      if sInfo.FiledList.length > 0 then some (some sInfo) else some none

/-- The traversal of `ast.Inspect` over the `TypeSpec` nodes, appending to
`structInfoList`. -/
def inspectAll (tagGet : GoString → GoString → GoString) :
    List TypeSpec → List structInfo → Option (List structInfo)
  | [], structInfoList => some structInfoList
  | ts :: rest, structInfoList =>
    match inspectTypeSpec tagGet ts with
    | none => none
    | some none => inspectAll tagGet rest structInfoList
    | some (some sInfo) => inspectAll tagGet rest (structInfoList ++ [sInfo])

/-- Source `AnalysisStruct`, from the parsed file on. -/
def AnalysisStruct (ct : CaseTables) (tagGet : GoString → GoString → GoString)
    (file : File) : Option (GoString × List structInfo) := do
  let _rootName ← upperFirst ct file.Name
  let structInfoList ← inspectAll tagGet file.Specs []
  some (file.Name, structInfoList)

/-! ### Reference description of a schema -/

/-- The named fields of a record declaration, in declaration order. -/
def namedFields (fields : List Field) : List Field :=
  fields.filter (fun f => !f.Names.isEmpty)

/-- The field is tagged `key:"true"`. -/
def isKeyField (tagGet : GoString → GoString → GoString) (f : Field) : Bool :=
  match f.Tag with
  | none => false
  | some v => decide (tagGet ((v.drop 1).take (v.length - 2)) (go "key") = go "true")

/-- Position, counted from `i`, of the first field tagged `key:"true"`; `-1`
when no field is tagged. -/
def firstKeyIndex (tagGet : GoString → GoString → GoString) : List Field → Nat → Int
  | [], _ => -1
  | f :: rest, i => if isKeyField tagGet f then (i : Int) else firstKeyIndex tagGet rest (i + 1)

/-- A tag function for declarations without key tags. -/
def noKeyTag : GoString → GoString → GoString := fun _ _ => []

/-- A tag function that finds `key:"true"` in exactly the tag `key:"true"`. -/
def keyTag : GoString → GoString → GoString :=
  fun tag key => if tag = go "key:\"true\"" ∧ key = go "key" then go "true" else []

/-- The invariant of a schema under construction: as many types as names, and
a key index that is `-1` or the position of a field. -/
def structInfo.Inv (sInfo : structInfo) : Prop :=
  sInfo.FiledList.length = sInfo.TypeList.length ∧
    (sInfo.keyIndex = -1 ∨ (0 ≤ sInfo.keyIndex ∧ sInfo.keyIndex < sInfo.FiledList.length))

/-- The name a named field contributes to the schema: the first name of the
field line. -/
def fieldName (f : Field) : GoString := f.Names.headD []

/-- The printed type of a field. -/
def fieldType (f : Field) : GoString := f.TypeStr.getD []

/-- The schema of a `TypeSpec` as described: none for a declaration that is not
a struct or has no named field; else the record name, the named fields with
their types in declaration order, and the position of the first field tagged
`key:"true"`. -/
def schemaOf (tagGet : GoString → GoString → GoString) (ts : TypeSpec) : Option structInfo :=
  match ts.Struct with
  | none => none
  | some fields =>
    if namedFields fields = [] then none
    else some ⟨ts.Name, (namedFields fields).map fieldName,
      (namedFields fields).map fieldType, firstKeyIndex tagGet (namedFields fields) 0⟩

/-- The tags of the fields are string literals with their quotes, and the
types of the named fields can be printed. -/
def TypeSpec.Printable (ts : TypeSpec) : Prop :=
  ∀ fields, ts.Struct = some fields → ∀ f ∈ fields,
    (∀ v, f.Tag = some v → 2 ≤ v.length) ∧ (f.Names ≠ [] → f.TypeStr ≠ none)

instance (ts : TypeSpec) : Decidable ts.Printable := by
  unfold TypeSpec.Printable
  cases ts.Struct with
  | none => exact isTrue (fun _ h => by cases h)
  | some fs =>
    exact decidable_of_iff (∀ f ∈ fs, (∀ v, f.Tag = some v → 2 ≤ v.length) ∧
      (f.Names ≠ [] → f.TypeStr ≠ none))
      ⟨fun h fields hf => by cases hf; exact h, fun h => h fs rfl⟩

/-- The file of the specification's scenario: package `shop` with the records
`Shop` (field `id` tagged as key) and `Item`. -/
def shopFile : File :=
  ⟨go "shop",
   [⟨go "Shop", some [⟨[go "id"], some (go "`key:\"true\"`"), some (go "int")⟩,
      ⟨[go "name"], none, some (go "string")⟩]⟩,
    ⟨go "Item", some [⟨[go "sku"], none, some (go "string")⟩,
      ⟨[go "price"], none, some (go "float64")⟩]⟩]⟩


/-- A record declaration with two fields tagged `key:"true"`. -/
def twoKeysSpec : TypeSpec :=
  ⟨go "Shop", some [⟨[go "id"], some (go "`key:\"true\"`"), some (go "int")⟩,
    ⟨[go "code"], some (go "`key:\"true\"`"), some (go "string")⟩]⟩

/-- A file with a record of embedded fields only, a type that is not a struct
and a record with one embedded and one named field. -/
def embeddedFile : File :=
  ⟨go "shop",
   [⟨go "Base", some [⟨[], none, some (go "sync.Mutex")⟩]⟩,
    ⟨go "ID", none⟩,
    ⟨go "Shop", some [⟨[], none, some (go "Base")⟩, ⟨[go "id"], none, some (go "int")⟩]⟩]⟩

/-- A file whose record declares two names on one field line: `x, y int`. -/
def pointFile : File :=
  ⟨go "point", [⟨go "Point", some [⟨[go "x", go "y"], none, some (go "int")⟩]⟩]⟩


/-! ## The emitted dataset controller (`main.go` lines 287-345)

The statements `generateDataCtrl` writes for the type `DataSet`, its methods
and the load loop, read as Go code.  `R` is the type of the loaded records
(`*Root`), `K` the type of the index keys; the map `indexs` is given by its
lookup function. -/

/-- The emitted type `DataSet`: `set []*Root` and `indexs map[any]int`. -/
structure DataSet (R K : Type) where
  set : List R
  indexs : K → Option Nat

/-- The emitted `_newDataSet()`: an empty `set` and an empty `indexs`. -/
def newDataSet {R K : Type} : DataSet R K := ⟨[], fun _ => none⟩

/-- The emitted method `Len`: `return len(s.set)`. -/
def DataSet.Len {R K : Type} (s : DataSet R K) : Nat := s.set.length

/-- The emitted method `Load(key)`: `if i, ok := s.indexs[key]; ok { return
s.set[i] }; return nil`.  The result is `none` for a panic of `s.set[i]`,
`some none` for `nil`, else the record. -/
def DataSet.Load {R K : Type} (s : DataSet R K) (key : K) : Option (Option R) :=
  match s.indexs key with
  | some i => (s.set.get? i).map some
  | none => some none

/-- Body of the emitted load loop (lines 334-343) on the converted record
`obj` at position `index`: `ds.set = append(ds.set, obj)` and
`ds.indexs[key] = index`, where `keyOf index obj` is the key the
index-insertion statement uses. -/
def loadStep {R K : Type} [DecidableEq K] (keyOf : Nat → R → K) (ds : DataSet R K)
    (index : Nat) (obj : R) : DataSet R K :=
  ⟨ds.set ++ [obj], fun k => if k = keyOf index obj then some index else ds.indexs k⟩

/-- The emitted load loop `for index, data := range jsonDatas`, on the
converted records. -/
def loadLoop {R K : Type} [DecidableEq K] (keyOf : Nat → R → K) :
    Nat → List R → DataSet R K → DataSet R K
  | _, [], ds => ds
  | index, obj :: rest, ds => loadLoop keyOf (index + 1) rest (loadStep keyOf ds index obj)

/-- The data set the emitted `Load` function builds from the converted
records: the load loop on `_newDataSet()`. -/
def loadAll {R K : Type} [DecidableEq K] (keyOf : Nat → R → K) (objs : List R) :
    DataSet R K :=
  loadLoop keyOf 0 objs newDataSet

/-- The key of the statement `ds.indexs[obj.<key field>] = index`, for a root
record with a primary key read by `key`. -/
def fieldKey {R K : Type} (key : R → K) : Nat → R → K := fun _ obj => key obj

/-- The key of the statement `ds.indexs[index+1] = index`, for a root record
without a primary key. -/
def autoKey {R : Type} : Nat → R → Nat := fun index _ => index + 1

/-- The package `item`, whose root record has no primary key. -/
def itemSchemas : List structInfo :=
  [⟨go "Item", [go "sku"], [go "string"], -1⟩]


/-! ## Trimming lemmas -/

theorem leadSpace_le (s : GoString) : leadSpace s ≤ s.length := by
  match s with
  | [] => simp [leadSpace]
  | [a] => simp only [leadSpace]; split <;> simp
  | [a, b] => simp only [leadSpace]; split_ifs <;> simp
  | a :: b :: c :: r => simp only [leadSpace]; split_ifs <;> simp

theorem trailSpaceRev_le (s : GoString) : trailSpaceRev s ≤ s.length := by
  match s with
  | [] => simp [trailSpaceRev]
  | [a] => simp only [trailSpaceRev]; split <;> simp
  | [a, b] => simp only [trailSpaceRev]; split_ifs <;> simp
  | a :: b :: c :: r => simp only [trailSpaceRev]; split_ifs <;> simp

theorem stripN_fuel (f : GoString → Nat) (hf : ∀ s, f s ≤ s.length) :
    ∀ (n m : Nat) (s : GoString), s.length ≤ n → s.length ≤ m →
      stripN f n s = stripN f m s := by
  intro n
  induction n with
  | zero =>
    intro m s hn _
    have hs : s = [] := List.length_eq_zero.mp (Nat.le_zero.mp hn)
    have h0 : f [] = 0 := Nat.le_zero.mp (hf [])
    subst hs
    cases m <;> simp [stripN, h0]
  | succ n ih =>
    intro m s hn hm
    cases m with
    | zero =>
      have hs : s = [] := List.length_eq_zero.mp (Nat.le_zero.mp hm)
      have h0 : f [] = 0 := Nat.le_zero.mp (hf [])
      subst hs
      simp [stripN, h0]
    | succ m =>
      simp only [stripN]
      split_ifs with h
      · rfl
      · have h1 := hf s
        apply ih <;> simp only [List.length_drop] <;> omega

theorem strip_unfold (f : GoString → Nat) (hf : ∀ s, f s ≤ s.length) (s : GoString) :
    strip f s = if f s = 0 then s else strip f (s.drop (f s)) := by
  unfold strip
  cases hs : s.length with
  | zero =>
    have : s = [] := List.length_eq_zero.mp hs
    have h0 : f [] = 0 := Nat.le_zero.mp (hf [])
    subst this
    simp [stripN, h0]
  | succ n =>
    simp only [stripN]
    split_ifs with h
    · rfl
    · have h1 := hf s
      apply stripN_fuel f hf <;> simp only [List.length_drop] <;> omega

theorem strip_of_zero (f : GoString → Nat) (hf : ∀ s, f s ≤ s.length) (s : GoString)
    (h : f s = 0) : strip f s = s := by
  rw [strip_unfold f hf, if_pos h]

theorem strip_of_ne (f : GoString → Nat) (hf : ∀ s, f s ≤ s.length) (s : GoString)
    (h : f s ≠ 0) : strip f s = strip f (s.drop (f s)) := by
  rw [strip_unfold f hf, if_neg h]

theorem strip_nil (f : GoString → Nat) (hf : ∀ s, f s ≤ s.length) : strip f [] = [] :=
  strip_of_zero f hf [] (Nat.le_zero.mp (hf []))

/-- Induction along the rounds of `strip`. -/
theorem strip_induction (f : GoString → Nat) (hf : ∀ s, f s ≤ s.length)
    (P : GoString → Prop)
    (h0 : ∀ s, f s = 0 → P s)
    (h1 : ∀ s, f s ≠ 0 → P (s.drop (f s)) → P s) : ∀ s, P s := by
  have key : ∀ n (s : GoString), s.length ≤ n → P s := by
    intro n
    induction n with
    | zero =>
      intro s hs
      have hs0 : s = [] := List.length_eq_zero.mp (Nat.le_zero.mp hs)
      subst hs0
      exact h0 [] (Nat.le_zero.mp (hf []))
    | succ n ih =>
      intro s hs
      by_cases h : f s = 0
      · exact h0 s h
      · apply h1 s h
        have := hf s
        exact ih _ (by simp only [List.length_drop]; omega)
  intro s
  exact key s.length s (Nat.le_refl _)

theorem strip_fixed (f : GoString → Nat) (hf : ∀ s, f s ≤ s.length) (s : GoString) :
    f (strip f s) = 0 := by
  refine strip_induction f hf (fun s => f (strip f s) = 0) ?_ ?_ s
  · intro s h; rw [strip_of_zero f hf s h]; exact h
  · intro s h ih; rw [strip_of_ne f hf s h]; exact ih

theorem strip_idem (f : GoString → Nat) (hf : ∀ s, f s ≤ s.length) (s : GoString) :
    strip f (strip f s) = strip f s :=
  strip_of_zero f hf _ (strip_fixed f hf s)

theorem strip_eq_drop (f : GoString → Nat) (hf : ∀ s, f s ≤ s.length) (s : GoString) :
    ∃ k, strip f s = s.drop k := by
  refine strip_induction f hf (fun s => ∃ k, strip f s = s.drop k) ?_ ?_ s
  · intro s h; exact ⟨0, by rw [strip_of_zero f hf s h]; rfl⟩
  · intro s h ih
    obtain ⟨k, hk⟩ := ih
    exact ⟨f s + k, by rw [strip_of_ne f hf s h, hk, List.drop_drop]⟩

theorem strip_length_le (f : GoString → Nat) (hf : ∀ s, f s ≤ s.length) (s : GoString) :
    (strip f s).length ≤ s.length := by
  obtain ⟨k, hk⟩ := strip_eq_drop f hf s
  rw [hk, List.length_drop]; omega

theorem leadSpace_append (x y : GoString) (h : leadSpace x ≠ 0) :
    leadSpace (x ++ y) = leadSpace x := by
  match x with
  | [] => simp [leadSpace] at h
  | [a] =>
    simp only [leadSpace] at h ⊢
    split_ifs at h with h1
    · cases y with
      | nil => simp [leadSpace, h1]
      | cons b y => cases y <;> simp [leadSpace, h1]
    · exact absurd rfl h
  | [a, b] =>
    simp only [leadSpace] at h ⊢
    cases y with
    | nil => simp [leadSpace]
    | cons c y =>
      simp only [List.cons_append, List.nil_append, leadSpace]
      split_ifs at h ⊢ <;> simp_all
  | a :: b :: c :: r => simp [leadSpace]

theorem trailSpaceRev_append (x y : GoString) (h : trailSpaceRev x ≠ 0) :
    trailSpaceRev (x ++ y) = trailSpaceRev x := by
  match x with
  | [] => simp [trailSpaceRev] at h
  | [a] =>
    simp only [trailSpaceRev] at h ⊢
    split_ifs at h with h1
    · cases y with
      | nil => simp [trailSpaceRev, h1]
      | cons b y => cases y <;> simp [trailSpaceRev, h1]
    · exact absurd rfl h
  | [a, b] =>
    simp only [trailSpaceRev] at h ⊢
    cases y with
    | nil => simp [trailSpaceRev]
    | cons c y =>
      simp only [List.cons_append, List.nil_append, trailSpaceRev]
      split_ifs at h ⊢ <;> simp_all
  | a :: b :: c :: r => simp [trailSpaceRev]


theorem u8_lt_le_absurd (v w : UInt8) (hv : v < w) (hw : w ≤ v) : False := by
  rw [UInt8.lt_def] at hv
  rw [UInt8.le_def] at hw
  exact absurd (Fin.lt_of_lt_of_le hv hw) (Fin.lt_irrefl _)

theorem sp2_fst {a b : UInt8} (h : sp2 a b = true) : a = 0xC2 := by
  simp [sp2] at h; exact h.1

theorem sp2_snd {a b : UInt8} (h : sp2 a b = true) : b = 0x85 ∨ b = 0xA0 := by
  simp [sp2] at h; exact h.2

theorem sp3_snd {a b c : UInt8} (h : sp3 a b c = true) :
    b = 0x9A ∨ b = 0x80 ∨ b = 0x81 := by
  simp [sp3] at h
  rcases h with ((⟨⟨_, h⟩, _⟩ | ⟨⟨_, h⟩, _⟩) | ⟨⟨_, h⟩, _⟩) | ⟨⟨_, h⟩, _⟩ <;> simp [h]

theorem sp3_thd {a b c : UInt8} (h : sp3 a b c = true) : 0x80 ≤ c := by
  simp [sp3] at h
  rcases h with ((⟨_, h⟩ | ⟨_, h⟩) | ⟨_, h⟩) | ⟨_, h⟩
  · subst h; decide
  · rcases h with ((h | h) | h) | h
    · exact h.1
    · subst h; decide
    · subst h; decide
    · subst h; decide
  · subst h; decide
  · subst h; decide

theorem not_sp1_of_le {c : UInt8} (h : 0x80 ≤ c) : sp1 c = false := by
  cases hc : sp1 c with
  | false => rfl
  | true =>
    exfalso
    simp [sp1] at hc
    rcases hc with ((((h1 | h1) | h1) | h1) | h1) | h1 <;> subst h1 <;> revert h <;> decide

theorem not_sp2_of_ne {a b : UInt8} (h : a ≠ 0xC2) : sp2 a b = false := by
  simp [sp2, h]

theorem not_sp3_of_ne {a b c : UInt8} (h : a ≠ 0xE1 ∧ a ≠ 0xE2 ∧ a ≠ 0xE3) :
    sp3 a b c = false := by
  simp [sp3, h]

theorem not_sp3_of_lt {a b c : UInt8} (h : b < 0x80) : sp3 a b c = false := by
  cases hs : sp3 a b c with
  | false => rfl
  | true =>
    exfalso
    rcases sp3_snd hs with h1 | h1 | h1 <;> subst h1 <;> revert h <;> decide

/-- Bytes that follow an ASCII byte never complete a white-space rune with it. -/
theorem safe_ascii (u : UInt8) (hu : u < 0x80) (r : GoString) (x : GoString) (hx : x ≠ [])
    (h0 : trailSpaceRev x = 0) : trailSpaceRev (x ++ u :: r) = 0 := by
  have h2 : ∀ b, sp2 u b = false := fun b =>
    not_sp2_of_ne (by intro h; subst h; revert hu; decide)
  have h3 : ∀ b c, sp3 u b c = false := fun b c =>
    not_sp3_of_ne (by refine ⟨?_, ?_, ?_⟩ <;> (intro h; subst h; revert hu; decide))
  have h4 : ∀ a c, sp3 a u c = false := fun a c => not_sp3_of_lt hu
  match x, hx with
  | [c], _ =>
    simp only [trailSpaceRev] at h0
    split_ifs at h0 with h1
    cases r <;> simp [trailSpaceRev, h1, h2, h4]
  | [c, b], _ =>
    simp only [trailSpaceRev] at h0
    simp only [List.cons_append, List.nil_append, trailSpaceRev]
    split_ifs at h0 with h1 h2
    simp [h1, h2, h3]
  | c :: b :: a :: r, _ =>
    simpa [trailSpaceRev] using h0

/-- Bytes that follow a white-space rune never complete a white-space rune
with its bytes. -/
theorem safe_space (pr : GoString) (hp : IsSpRev pr) (x : GoString) (hx : x ≠ [])
    (h0 : trailSpaceRev x = 0) : trailSpaceRev (x ++ pr) = 0 := by
  match x, hx with
  | [c], _ =>
    simp only [trailSpaceRev] at h0
    split_ifs at h0 with h1
    match pr, hp with
    | [u], hp =>
      simp only [IsSpRev] at hp
      have hu : u ≠ 0xC2 := by
        intro h; subst h; revert hp; decide
      simp [trailSpaceRev, h1, not_sp2_of_ne hu]
    | [u, v], hp =>
      simp only [IsSpRev] at hp
      have hv := sp2_fst hp
      have hu : u ≠ 0xC2 := by
        rcases sp2_snd hp with h | h <;> subst h <;> decide
      have hv3 : v ≠ 0xE1 ∧ v ≠ 0xE2 ∧ v ≠ 0xE3 := by subst hv; decide
      simp [trailSpaceRev, h1, not_sp2_of_ne hu, not_sp3_of_ne hv3]
    | [u, v, w], hp =>
      simp only [IsSpRev] at hp
      have hu : u ≠ 0xC2 := by
        intro h; subst h; revert hp; simp [sp3]
      have hv3 : v ≠ 0xE1 ∧ v ≠ 0xE2 ∧ v ≠ 0xE3 := by
        rcases sp3_snd hp with h | h | h <;> subst h <;> decide
      simp [trailSpaceRev, h1, not_sp2_of_ne hu, not_sp3_of_ne hv3]
  | [c, b], _ =>
    simp only [trailSpaceRev] at h0
    split_ifs at h0 with h1 h2
    have hu3 : ∀ u r, pr = u :: r → u ≠ 0xE1 ∧ u ≠ 0xE2 ∧ u ≠ 0xE3 := by
      intro u r hpr
      subst hpr
      match r, hp with
      | [], hp =>
        simp only [IsSpRev] at hp
        refine ⟨?_, ?_, ?_⟩ <;> (intro h; subst h; revert hp; decide)
      | [v], hp =>
        simp only [IsSpRev] at hp
        rcases sp2_snd hp with h | h <;> subst h <;> decide
      | [v, w], hp =>
        simp only [IsSpRev] at hp
        refine ⟨?_, ?_, ?_⟩ <;> (intro h; subst h; revert hp; simp [sp3]; try decide)
    match pr, hp with
    | u :: r, hp =>
      simp [trailSpaceRev, h1, h2, not_sp3_of_ne (hu3 u r rfl)]
  | c :: b :: a :: r, _ =>
    simpa [trailSpaceRev] using h0

theorem strip_trail_append (pr : GoString)
    (hsafe : ∀ x, x ≠ [] → trailSpaceRev x = 0 → trailSpaceRev (x ++ pr) = 0)
    (x : GoString) :
    strip trailSpaceRev (x ++ pr) =
      if strip trailSpaceRev x = [] then strip trailSpaceRev pr
      else strip trailSpaceRev x ++ pr := by
  refine strip_induction trailSpaceRev trailSpaceRev_le
    (fun x => strip trailSpaceRev (x ++ pr) =
      if strip trailSpaceRev x = [] then strip trailSpaceRev pr
      else strip trailSpaceRev x ++ pr) ?_ ?_ x
  · intro x h
    rw [strip_of_zero _ trailSpaceRev_le x h]
    by_cases hx : x = []
    · subst hx; simp
    · rw [if_neg hx]
      exact strip_of_zero _ trailSpaceRev_le _ (hsafe x hx h)
  · intro x h ih
    have hle := trailSpaceRev_le x
    have happ := trailSpaceRev_append x pr h
    rw [strip_of_ne _ trailSpaceRev_le (x ++ pr) (by rw [happ]; exact h), happ,
      List.drop_append_of_le_length hle, ih, ← strip_of_ne _ trailSpaceRev_le x h]

theorem trimRight_append (p t : GoString)
    (hsafe : ∀ x, x ≠ [] → trailSpaceRev x = 0 → trailSpaceRev (x ++ p.reverse) = 0) :
    trimRight (p ++ t) = if trimRight t = [] then trimRight p else p ++ trimRight t := by
  unfold trimRight
  rw [List.reverse_append, strip_trail_append _ hsafe]
  by_cases h : strip trailSpaceRev t.reverse = []
  · simp [h]
  · simp [h]

theorem strip_trail_isSpRev (pr : GoString) (hp : IsSpRev pr) :
    strip trailSpaceRev pr = [] := by
  have h : trailSpaceRev pr = pr.length := by
    match pr, hp with
    | [a], hp => simp only [IsSpRev] at hp; simp [trailSpaceRev, hp]
    | [b, a], hp =>
      simp only [IsSpRev] at hp
      have hb : sp1 b = false := by
        rcases sp2_snd hp with h | h <;> subst h <;> decide
      simp [trailSpaceRev, hp, hb]
    | [c, b, a], hp =>
      simp only [IsSpRev] at hp
      have hc : sp1 c = false := not_sp1_of_le (sp3_thd hp)
      have hb : sp2 b c = false := by
        apply not_sp2_of_ne
        rcases sp3_snd hp with h | h | h <;> subst h <;> decide
      simp [trailSpaceRev, hp, hb, hc]
  rw [strip_of_ne _ trailSpaceRev_le pr (by rw [h]; intro h0; rw [List.length_eq_zero] at h0; subst h0; exact hp),
    h, List.drop_length]
  exact strip_nil _ trailSpaceRev_le


theorem leadSpace_take (s : GoString) (h : leadSpace s ≠ 0) :
    IsSpRev (s.take (leadSpace s)).reverse ∧
      leadSpace (s.take (leadSpace s)) = leadSpace s := by
  match s with
  | [] => simp [leadSpace] at h
  | [a] =>
    simp only [leadSpace] at h ⊢
    split_ifs at h ⊢ with h1
    · simp [IsSpRev, leadSpace, h1]
    · exact absurd rfl h
  | [a, b] =>
    simp only [leadSpace] at h ⊢
    split_ifs at h ⊢ with h1 h2
    · simp [IsSpRev, leadSpace, h1]
    · simp [IsSpRev, leadSpace, h1, h2]
    · exact absurd rfl h
  | a :: b :: c :: r =>
    simp only [leadSpace] at h ⊢
    split_ifs at h ⊢ with h1 h2 h3
    · simp [IsSpRev, leadSpace, h1]
    · simp [IsSpRev, leadSpace, h1, h2]
    · simp [IsSpRev, leadSpace, h1, h2, h3]
    · exact absurd rfl h

theorem trimLeft_of_zero (s : GoString) (h : leadSpace s = 0) : trimLeft s = s :=
  strip_of_zero _ leadSpace_le s h

theorem trimLeft_of_ne (s : GoString) (h : leadSpace s ≠ 0) :
    trimLeft s = trimLeft (s.drop (leadSpace s)) :=
  strip_of_ne _ leadSpace_le s h

theorem trimRight_eq_take (s : GoString) : ∃ k, trimRight s = s.take k := by
  obtain ⟨k, hk⟩ := strip_eq_drop trailSpaceRev trailSpaceRev_le s.reverse
  refine ⟨s.length - k, ?_⟩
  unfold trimRight
  rw [hk, List.drop_reverse, List.reverse_reverse]

theorem trimRight_length_le (s : GoString) : (trimRight s).length ≤ s.length := by
  obtain ⟨k, hk⟩ := trimRight_eq_take s
  rw [hk, List.length_take]; omega

theorem trimLeft_length_le (s : GoString) : (trimLeft s).length ≤ s.length :=
  strip_length_le _ leadSpace_le s

theorem trimRight_idem (s : GoString) : trimRight (trimRight s) = trimRight s := by
  unfold trimRight
  rw [List.reverse_reverse, strip_idem _ trailSpaceRev_le]

theorem trimRight_nil : trimRight [] = [] := by
  unfold trimRight
  rw [List.reverse_nil, strip_nil _ trailSpaceRev_le, List.reverse_nil]

theorem leadSpace_trimRight (s : GoString) (h : leadSpace s = 0) :
    leadSpace (trimRight s) = 0 := by
  obtain ⟨k, hk⟩ := trimRight_eq_take s
  by_contra hne
  have := leadSpace_append (trimRight s) (s.drop k) hne
  rw [hk, List.take_append_drop] at this
  rw [hk] at hne
  exact hne (this ▸ h)

/-- Trimming the right end first does not change the result of `TrimSpace`. -/
theorem TrimSpace_trimRight (t : GoString) : TrimSpace (trimRight t) = TrimSpace t := by
  unfold TrimSpace
  refine strip_induction leadSpace leadSpace_le
    (fun t => trimRight (trimLeft (trimRight t)) = trimRight (trimLeft t)) ?_ ?_ t
  · intro s h
    rw [trimLeft_of_zero s h, trimLeft_of_zero _ (leadSpace_trimRight s h), trimRight_idem]
  · intro s h ih
    obtain ⟨hsp, hlen⟩ := leadSpace_take s h
    have hs : s = s.take (leadSpace s) ++ s.drop (leadSpace s) :=
      (List.take_append_drop _ _).symm
    have hr := trimRight_append (s.take (leadSpace s)) (s.drop (leadSpace s))
      (safe_space _ hsp)
    rw [← hs] at hr
    have hp : trimRight (s.take (leadSpace s)) = [] := by
      unfold trimRight
      rw [strip_trail_isSpRev _ hsp, List.reverse_nil]
    rw [trimLeft_of_ne s h, ← ih]
    congr 1
    rw [hr]
    by_cases he : trimRight (s.drop (leadSpace s)) = []
    · rw [if_pos he, hp, he]
    · rw [if_neg he]
      have hl : leadSpace (s.take (leadSpace s) ++ trimRight (s.drop (leadSpace s))) =
          leadSpace s := by
        rw [leadSpace_append _ _ (by rw [hlen]; exact h), hlen]
      have hlt : (s.take (leadSpace s)).length = leadSpace s := by
        rw [List.length_take]; exact Nat.min_eq_left (leadSpace_le s)
      rw [trimLeft_of_ne _ (by rw [hl]; exact h), hl]
      congr 1
      rw [List.drop_append_of_le_length (by rw [hlt])]
      rw [List.drop_of_length_le (by rw [hlt]), List.nil_append]

theorem TrimSpace_length_le (s : GoString) : (TrimSpace s).length ≤ s.length :=
  Nat.le_trans (trimRight_length_le _) (trimLeft_length_le s)

theorem leadSpace_ascii (u : UInt8) (hu : u < 0x80) (h1 : sp1 u = false) (t : GoString) :
    leadSpace (u :: t) = 0 := by
  have h2 : ∀ b, sp2 u b = false := fun b =>
    not_sp2_of_ne (by intro h; subst h; revert hu; decide)
  have h3 : ∀ b c, sp3 u b c = false := fun b c =>
    not_sp3_of_ne (by refine ⟨?_, ?_, ?_⟩ <;> (intro h; subst h; revert hu; decide))
  match t with
  | [] => simp [leadSpace, h1]
  | [b] => simp [leadSpace, h1, h2]
  | b :: c :: r => simp [leadSpace, h1, h2, h3]

/-- `TrimSpace` of a string that starts with the non-empty ASCII text `p`, which
neither starts nor ends with white space: only the right end of the rest is
trimmed. -/
theorem TrimSpace_ascii_append (u v : UInt8) (m : GoString) (t : GoString)
    (hu : u < 0x80) (hu1 : sp1 u = false) (hv : v < 0x80) (hv1 : sp1 v = false) :
    TrimSpace (u :: (m ++ v :: t)) = u :: (m ++ v :: trimRight t) := by
  unfold TrimSpace
  rw [trimLeft_of_zero _ (leadSpace_ascii u hu hu1 _)]
  have hsafe : ∀ x, x ≠ [] → trailSpaceRev x = 0 →
      trailSpaceRev (x ++ (u :: (m ++ [v])).reverse) = 0 := by
    intro x hx h0
    have : (u :: (m ++ [v])).reverse = v :: (m.reverse ++ [u]) := by simp
    rw [this]
    exact safe_ascii v hv _ x hx h0
  have hp : trimRight (u :: (m ++ [v])) = u :: (m ++ [v]) := by
    unfold trimRight
    have : (u :: (m ++ [v])).reverse = v :: (m.reverse ++ [u]) := by simp
    rw [this, strip_of_zero _ trailSpaceRev_le]
    · simp
    · cases hm : m.reverse ++ [u] with
      | nil => simp at hm
      | cons b r =>
        have h2 : sp2 b v = false := by
          cases hs : sp2 b v with
          | false => rfl
          | true =>
            exfalso
            rcases sp2_snd hs with h | h <;> subst h <;> revert hv <;> decide
        have h3 : ∀ a, sp3 a b v = false := by
          intro a
          cases hs : sp3 a b v with
          | false => rfl
          | true =>
            exfalso
            exact u8_lt_le_absurd _ _ hv (sp3_thd hs)
        cases r <;> simp [trailSpaceRev, hv1, h2, h3]
  have hrw : u :: (m ++ v :: t) = (u :: (m ++ [v])) ++ t := by simp
  rw [hrw, trimRight_append _ _ hsafe, hp]
  by_cases he : trimRight t = []
  · simp [he]
  · simp [he]


/-- `TrimSpace` of `[]` followed by `t`: only the right end of `t` is trimmed. -/
theorem TrimSpace_brackets (t : GoString) :
    TrimSpace (go "[]" ++ t) = go "[]" ++ trimRight t :=
  TrimSpace_ascii_append 0x5B 0x5D [] t (by decide) (by decide) (by decide) (by decide)

/-- `TrimSpace` of `map[` followed by `t`: only the right end of `t` is
trimmed. -/
theorem TrimSpace_map (t : GoString) :
    TrimSpace (go "map[" ++ t) = go "map[" ++ trimRight t :=
  TrimSpace_ascii_append 0x6D 0x5B [0x61, 0x70] t (by decide) (by decide) (by decide)
    (by decide)


/-! ## The type mapper returns -/

theorem getJsonTypeN_fuel : ∀ (n m : Nat) (t : GoString), t.length < n → t.length < m →
    getJsonTypeN n t = getJsonTypeN m t := by
  intro n
  induction n with
  | zero => intro m t hn _; omega
  | succ n ih =>
    intro m t hn hm
    cases m with
    | zero => omega
    | succ m =>
      simp only [getJsonTypeN]
      split_ifs with h1 h2 h3
      · rfl
      · rfl
      · have hl := TrimSpace_length_le t
        have hpos : 2 ≤ (TrimSpace t).length := by
          simp only [isList, HasPrefix] at h3
          have := List.IsPrefix.length_le (List.isPrefixOf_iff_prefix.mp h3)
          simpa [go] using this
        rw [ih m] <;> simp only [List.length_drop] <;> omega
      · rfl

/-- The recursion of `getJsonType` terminates within `tStr.length + 1` calls. -/
theorem getJsonTypeN_isSome : ∀ (n : Nat) (t : GoString), t.length < n →
    (getJsonTypeN n t).isSome = true := by
  intro n
  induction n with
  | zero => intro t hn; omega
  | succ n ih =>
    intro t hn
    simp only [getJsonTypeN]
    split_ifs with h1 h2 h3
    · rfl
    · rfl
    · have hl := TrimSpace_length_le t
      have hpos : 2 ≤ (TrimSpace t).length := by
        simp only [isList, HasPrefix] at h3
        have := List.IsPrefix.length_le (List.isPrefixOf_iff_prefix.mp h3)
        simpa [go] using this
      have := ih ((TrimSpace t).drop 2) (by simp only [List.length_drop]; omega)
      simpa using this
    · rfl

/-- The body of `getJsonType`, as the source writes it. -/
theorem getJsonType_unfold (t : GoString) :
    getJsonType t =
      if TrimSpace t ∈ primitiveNames then TrimSpace t
      else if HasPrefix (TrimSpace t) (go "map[") = true then TrimSpace t
      else if isList (TrimSpace t) = true then go "[]" ++ getJsonType ((TrimSpace t).drop 2)
      else go "_" ++ TrimSpace t ++ go "Json" := by
  have hstep : getJsonTypeN (t.length + 1) t =
      if TrimSpace t ∈ primitiveNames then some (TrimSpace t)
      else if HasPrefix (TrimSpace t) (go "map[") = true then some (TrimSpace t)
      else if isList (TrimSpace t) = true then
        (getJsonTypeN t.length ((TrimSpace t).drop 2)).map (fun r => go "[]" ++ r)
      else some (go "_" ++ TrimSpace t ++ go "Json") := rfl
  by_cases h1 : TrimSpace t ∈ primitiveNames
  · rw [if_pos h1]; unfold getJsonType; rw [hstep, if_pos h1]; rfl
  · rw [if_neg h1]
    by_cases h2 : HasPrefix (TrimSpace t) (go "map[") = true
    · rw [if_pos h2]; unfold getJsonType; rw [hstep, if_neg h1, if_pos h2]; rfl
    · rw [if_neg h2]
      by_cases h3 : isList (TrimSpace t) = true
      · rw [if_pos h3]
        have hl := TrimSpace_length_le t
        have hpos : 2 ≤ (TrimSpace t).length := by
          simp only [isList, HasPrefix] at h3
          have := List.IsPrefix.length_le (List.isPrefixOf_iff_prefix.mp h3)
          simpa [go] using this
        have hs := getJsonTypeN_isSome (((TrimSpace t).drop 2).length + 1)
          ((TrimSpace t).drop 2) (by omega)
        obtain ⟨r, hr⟩ := Option.isSome_iff_exists.mp hs
        have hr2 : getJsonTypeN t.length ((TrimSpace t).drop 2) = some r := by
          rw [← hr]
          apply getJsonTypeN_fuel <;> simp only [List.length_drop] <;> omega
        have e1 : getJsonType t = go "[]" ++ r := by
          unfold getJsonType; rw [hstep, if_neg h1, if_neg h2, if_pos h3, hr2]; rfl
        have e2 : getJsonType ((TrimSpace t).drop 2) = r := by
          unfold getJsonType; rw [hr]; rfl
        rw [e1, e2]
      · rw [if_neg h3]; unfold getJsonType; rw [hstep, if_neg h1, if_neg h2, if_neg h3]; rfl

theorem getJsonType_congr (s t : GoString) (h : TrimSpace s = TrimSpace t) :
    getJsonType s = getJsonType t := by
  rw [getJsonType_unfold s, getJsonType_unfold t, h]


/-! ## The type mapper: claims -/

theorem HasPrefix_append (p t : GoString) : HasPrefix (p ++ t) p = true := by
  unfold HasPrefix
  exact List.isPrefixOf_iff_prefix.mpr (List.prefix_append p t)

theorem exists_of_HasPrefix (s p : GoString) (h : HasPrefix s p = true) :
    ∃ t, s = p ++ t := by
  unfold HasPrefix at h
  obtain ⟨t, ht⟩ := List.isPrefixOf_iff_prefix.mp h
  exact ⟨t, ht.symm⟩

theorem primitiveNames_not_list : ∀ x ∈ primitiveNames, isList x = false := by decide

theorem primitiveNames_not_map :
    ∀ x ∈ primitiveNames, HasPrefix x (go "map[") = false := by decide

/-- The list branch of `getJsonType`, on a string that starts with `[]`. -/
theorem getJsonType_brackets (T : GoString) :
    getJsonType (go "[]" ++ T) = go "[]" ++ getJsonType T := by
  rw [getJsonType_unfold (go "[]" ++ T), TrimSpace_brackets]
  have hl : isList (go "[]" ++ trimRight T) = true := HasPrefix_append _ _
  have h1 : go "[]" ++ trimRight T ∉ primitiveNames := by
    intro hm
    have := primitiveNames_not_list _ hm
    rw [hl] at this
    exact Bool.noConfusion this
  have h2 : ¬ HasPrefix (go "[]" ++ trimRight T) (go "map[") = true := by
    have hgo : go "[]" = [0x5B, 0x5D] := by decide
    have hmap : go "map[" = [0x6D, 0x61, 0x70, 0x5B] := by decide
    rw [hgo, hmap]
    simp [HasPrefix, List.isPrefixOf]
  rw [if_neg h1, if_neg h2, if_pos hl]
  congr 1
  have hd : (go "[]" ++ trimRight T).drop 2 = trimRight T := by
    have hgo : go "[]" = [0x5B, 0x5D] := by decide
    rw [hgo]; rfl
  rw [hd]
  exact getJsonType_congr _ _ (TrimSpace_trimRight T)

/-- C1: for every string `T`, `getJsonType("[]" + T) = "[]" + getJsonType(T)`:
the mapping of a sequence type is the sequence of the mapped element type, at
every nesting depth. -/
theorem getJsonType_sequence (T : GoString) :
    getJsonType (go "[]" ++ T) = go "[]" ++ getJsonType T :=
  getJsonType_brackets T

/-- C2 (the code at the failing input): the unsigned integer type `uint32` is
not in the `case` list of `getJsonType`, so it is renamed to the mirror-type
name `_uint32Json` instead of being returned unchanged. -/
theorem getJsonType_uint32 :
    getJsonType (go "uint32") = go "_uint32Json" ∧
      getJsonType (go "uint32") ≠ go "uint32" := by decide

/-- The nine names in the `case` list of `getJsonType` are returned
unchanged. -/
theorem getJsonType_primitiveNames : ∀ T ∈ primitiveNames, getJsonType T = T := by
  decide

/-- C3 as stated fails: a string that begins with `map[` and ends with a space
is not returned unchanged. -/
theorem getJsonType_map_trailing_space :
    HasPrefix (go "map[string]int ") (go "map[") = true ∧
      getJsonType (go "map[string]int ") ≠ go "map[string]int " := by decide

/-- The map branch of `getJsonType`. -/
theorem getJsonType_map_trimRight (T : GoString) (h : HasPrefix T (go "map[") = true) :
    getJsonType T = trimRight T := by
  obtain ⟨t, rfl⟩ := exists_of_HasPrefix T _ h
  have hT : TrimSpace (go "map[" ++ t) = trimRight (go "map[" ++ t) := by
    unfold TrimSpace
    have hmap : go "map[" = [0x6D, 0x61, 0x70, 0x5B] := by decide
    rw [hmap]
    show trimRight (trimLeft (0x6D :: ([0x61, 0x70, 0x5B] ++ t))) = _
    rw [trimLeft_of_zero _ (leadSpace_ascii 0x6D (by decide) (by decide) _)]
    rfl
  rw [getJsonType_unfold, hT.symm, TrimSpace_map]
  have hp : HasPrefix (go "map[" ++ trimRight t) (go "map[") = true := HasPrefix_append _ _
  have h1 : go "map[" ++ trimRight t ∉ primitiveNames := by
    intro hm
    have := primitiveNames_not_map _ hm
    rw [hp] at this
    exact Bool.noConfusion this
  rw [if_neg h1, if_pos hp]

/-- C3, amended: for every type string `T` that begins with `map[`,
`getJsonType(T)` is `T` with its trailing white space removed (so `T` itself
when `T` has no trailing white space). -/
theorem getJsonType_map (T : GoString) (h : HasPrefix T (go "map[") = true) :
    getJsonType T = trimRight T ∧ (trimRight T = T → getJsonType T = T) :=
  ⟨getJsonType_map_trimRight T h, fun e => (getJsonType_map_trimRight T h).trans e⟩

theorem getJsonType_map_witness :
    getJsonType (go "map[string]int ") = go "map[string]int" ∧
      getJsonType (go "map[string]int") = go "map[string]int" :=
  ⟨(getJsonType_map (go "map[string]int ") (by decide)).1.trans (by decide),
   (getJsonType_map (go "map[string]int") (by decide)).2 (by decide)⟩

/-- C4: for every type name `T` without surrounding white space that is not in
the `case` list, does not begin with `map[` and does not begin with `[]`,
`getJsonType(T)` is the rename `"_" + T + "Json"`, which is never `T`. -/
theorem getJsonType_rename (T : GoString) (htrim : TrimSpace T = T)
    (hprim : T ∉ primitiveNames) (hmap : HasPrefix T (go "map[") = false)
    (hlist : HasPrefix T (go "[]") = false) :
    getJsonType T = go "_" ++ T ++ go "Json" ∧ getJsonType T ≠ T := by
  have h : getJsonType T = go "_" ++ T ++ go "Json" := by
    rw [getJsonType_unfold, htrim, if_neg hprim, if_neg (by rw [hmap]; simp),
      if_neg (by unfold isList; rw [hlist]; simp)]
  refine ⟨h, ?_⟩
  intro he
  have hlen := congrArg List.length (h.symm.trans he)
  have h1 : (go "_").length = 1 := by decide
  have h2 : (go "Json").length = 4 := by decide
  simp only [List.length_append, h1, h2] at hlen
  omega

theorem getJsonType_rename_witness :
    getJsonType (go "Foo") = go "_" ++ go "Foo" ++ go "Json" ∧
      getJsonType (go "Foo") ≠ go "Foo" :=
  getJsonType_rename (go "Foo") (by decide) (by decide) (by decide) (by decide)


/-! ## When a type is copied verbatim -/

theorem stripLists_brackets (r : GoString) : stripLists (go "[]" ++ r) = stripLists r := by
  have hgo : go "[]" = [0x5B, 0x5D] := by decide
  rw [hgo]
  show stripLists (0x5B :: 0x5D :: r) = _
  rw [stripLists]
  simp

theorem stripLists_of_not_list (T : GoString) (h : isList T = false) : stripLists T = T := by
  have hgo : go "[]" = [0x5B, 0x5D] := by decide
  match T with
  | [] => rfl
  | [a] => rfl
  | a :: b :: r =>
    rw [stripLists]
    have hne : ¬ (a = 0x5B ∧ b = 0x5D) := by
      rintro ⟨rfl, rfl⟩
      rw [isList, hgo] at h
      simp [HasPrefix, List.isPrefixOf] at h
    rw [if_neg hne]

theorem trimRight_brackets (Z : GoString) : trimRight (go "[]" ++ Z) = go "[]" ++ trimRight Z := by
  have h := TrimSpace_brackets Z
  have hgo : go "[]" = [0x5B, 0x5D] := by decide
  unfold TrimSpace at h
  rw [hgo] at h ⊢
  rw [show ([0x5B, 0x5D] : GoString) ++ Z = 0x5B :: ([0x5D] ++ Z) from rfl,
    trimLeft_of_zero _ (leadSpace_ascii 0x5B (by decide) (by decide) _)] at h
  exact h

theorem primitiveNames_leadSpace : ∀ x ∈ primitiveNames, leadSpace x = 0 := by decide

/-- What `getJsonType` returns never starts with white space. -/
theorem leadSpace_getJsonType (T : GoString) : leadSpace (getJsonType T) = 0 := by
  have hmap : go "map[" = [0x6D, 0x61, 0x70, 0x5B] := by decide
  have hgo : go "[]" = [0x5B, 0x5D] := by decide
  have hus : go "_" = [0x5F] := by decide
  rw [getJsonType_unfold]
  split_ifs with h1 h2 h3
  · exact primitiveNames_leadSpace _ h1
  · obtain ⟨t, ht⟩ := exists_of_HasPrefix _ _ h2
    rw [ht, hmap]
    exact leadSpace_ascii 0x6D (by decide) (by decide) _
  · rw [hgo]
    exact leadSpace_ascii 0x5B (by decide) (by decide) _
  · rw [hus]
    exact leadSpace_ascii 0x5F (by decide) (by decide) _

theorem getJsonType_eq_self_iff_aux : ∀ (n : Nat) (T : GoString), T.length ≤ n →
    trimRight T = T →
    (getJsonType T = T ↔
      stripLists T ∈ primitiveNames ∨ HasPrefix (stripLists T) (go "map[") = true) := by
  intro n
  induction n with
  | zero =>
    intro T hn _
    have hT : T = [] := List.length_eq_zero.mp (Nat.le_zero.mp hn)
    subst hT
    decide
  | succ n ih =>
    intro T hn htr
    by_cases hl : isList T = true
    · obtain ⟨r, rfl⟩ := exists_of_HasPrefix _ _ hl
      have hr : trimRight r = r := by
        have := trimRight_brackets r
        rw [htr] at this
        exact (List.append_cancel_left this).symm
      have hlen : r.length ≤ n := by
        have h2 : (go "[]").length = 2 := by decide
        simp only [List.length_append, h2] at hn
        omega
      rw [getJsonType_brackets, stripLists_brackets, ← ih r hlen hr]
      constructor
      · intro h; exact List.append_cancel_left h
      · intro h; rw [h]
    · have hl' : isList T = false := by simpa using hl
      rw [stripLists_of_not_list T hl']
      by_cases h0 : leadSpace T = 0
      · have hT : TrimSpace T = T := by
          unfold TrimSpace
          rw [trimLeft_of_zero T h0, htr]
        rw [getJsonType_unfold, hT]
        by_cases h1 : T ∈ primitiveNames
        · simp [h1]
        · by_cases h2 : HasPrefix T (go "map[") = true
          · simp [h1, h2]
          · rw [if_neg h1, if_neg h2, if_neg hl]
            constructor
            · intro he
              exfalso
              have hlen := congrArg List.length he
              have e1 : (go "_").length = 1 := by decide
              have e2 : (go "Json").length = 4 := by decide
              simp only [List.length_append, e1, e2] at hlen
              omega
            · rintro (h | h)
              · exact absurd h h1
              · exact absurd h h2
      · constructor
        · intro he
          exact absurd (he ▸ leadSpace_getJsonType T) h0
        · rintro (h | h)
          · exact absurd (primitiveNames_leadSpace _ h) h0
          · exfalso
            obtain ⟨t, ht⟩ := exists_of_HasPrefix _ _ h
            have hmap : go "map[" = [0x6D, 0x61, 0x70, 0x5B] := by decide
            rw [ht, hmap] at h0
            exact h0 (leadSpace_ascii 0x6D (by decide) (by decide) _)

theorem trimRight_of_TrimSpace_eq (T : GoString) (h : TrimSpace T = T) : trimRight T = T := by
  have h0 : leadSpace T = 0 := by
    have h1 : leadSpace (trimLeft T) = 0 := strip_fixed _ leadSpace_le T
    have h2 := leadSpace_trimRight _ h1
    unfold TrimSpace at h
    rw [h] at h2
    exact h2
  unfold TrimSpace at h
  rw [trimLeft_of_zero T h0] at h
  exact h

/-- C20: for every type string `T` without leading or trailing white space,
`getJsonType(T) = T` (the field is copied verbatim) holds exactly when `T` with
all of its leading `[]` prefixes removed is in the `case` list of primitive
names or begins with `map[`. -/
theorem getJsonType_eq_self_iff (T : GoString) (htrim : TrimSpace T = T) :
    getJsonType T = T ↔
      stripLists T ∈ primitiveNames ∨ HasPrefix (stripLists T) (go "map[") = true :=
  getJsonType_eq_self_iff_aux T.length T (Nat.le_refl _) (trimRight_of_TrimSpace_eq T htrim)

theorem getJsonType_eq_self_iff_witness :
    (getJsonType (go "[][]int") = go "[][]int" ↔
      stripLists (go "[][]int") ∈ primitiveNames ∨
        HasPrefix (stripLists (go "[][]int")) (go "map[") = true) ∧
    getJsonType (go "[][]int") = go "[][]int" ∧
    getJsonType (go "[]map[string]Foo") = go "[]map[string]Foo" ∧
    getJsonType (go "[]Foo") ≠ go "[]Foo" :=
  ⟨getJsonType_eq_self_iff (go "[][]int") (by decide),
   (getJsonType_eq_self_iff (go "[][]int") (by decide)).mpr (by decide),
   (getJsonType_eq_self_iff (go "[]map[string]Foo") (by decide)).mpr (by decide),
   fun h => absurd ((getJsonType_eq_self_iff (go "[]Foo") (by decide)).mp h) (by decide)⟩


/-! ## Generator lemmas -/

theorem upperFirst_eq (ct : CaseTables) (s : GoString) (h : s ≠ []) :
    upperFirst ct s = some (capitalize ct s) := by
  cases s with
  | nil => exact absurd rfl h
  | cons c r => rfl

theorem firstByte_eq (s : GoString) (h : s ≠ []) : firstByte s = some (s.take 1) := by
  cases s with
  | nil => exact absurd rfl h
  | cons c r => rfl

/-- A loop whose body appends `piece x t` for the element `x` and the entry `t`
of `tl` at the loop index appends the pieces of all elements, in order. -/
theorem rangeLoop_zip {α β : Type} (body : Nat → α → GoString → Option GoString)
    (tl : List β) (piece : α → β → GoString) (P : α → Prop)
    (hbody : ∀ i x t buf, tl.get? i = some t → P x → body i x buf = some (buf ++ piece x t)) :
    ∀ (xs : List α) (k : Nat) (buf : GoString), (∀ x ∈ xs, P x) →
      k + xs.length ≤ tl.length →
      rangeLoop body k xs buf =
        some (buf ++ ((xs.zip (tl.drop k)).map (fun p => piece p.1 p.2)).flatten) := by
  intro xs
  induction xs with
  | nil => intro k buf _ _; simp [rangeLoop]
  | cons x xs ih =>
    intro k buf hP hlen
    have hk : k < tl.length := by simp only [List.length_cons] at hlen; omega
    have hget : tl.get? k = some tl[k] := by
      rw [List.get?_eq_getElem?]; exact List.getElem?_eq_getElem hk
    have hdrop : tl.drop k = tl[k] :: tl.drop (k + 1) := List.drop_eq_getElem_cons hk
    simp only [rangeLoop]
    rw [hbody k x _ buf hget (hP x (List.mem_cons_self _ _))]
    simp only [Option.some_bind]
    rw [ih (k + 1) _ (fun y hy => hP y (List.mem_cons_of_mem _ hy))
      (by simp only [List.length_cons] at hlen; omega)]
    rw [hdrop]
    simp only [List.zip_cons_cons, List.map_cons, List.flatten_cons, List.append_assoc]

/-- A loop whose body appends `piece x` for the element `x` appends the pieces
of all elements, in order. -/
theorem rangeLoop_map {α : Type} (body : Nat → α → GoString → Option GoString)
    (piece : α → GoString) (P : α → Prop)
    (hbody : ∀ i x buf, P x → body i x buf = some (buf ++ piece x)) :
    ∀ (xs : List α) (k : Nat) (buf : GoString), (∀ x ∈ xs, P x) →
      rangeLoop body k xs buf = some (buf ++ (xs.map piece).flatten) := by
  intro xs
  induction xs with
  | nil => intro k buf _; simp [rangeLoop]
  | cons x xs ih =>
    intro k buf hP
    simp only [rangeLoop]
    rw [hbody k x buf (hP x (List.mem_cons_self _ _))]
    simp only [Option.some_bind]
    rw [ih (k + 1) _ (fun y hy => hP y (List.mem_cons_of_mem _ hy))]
    simp [List.append_assoc]

theorem funcField_eq (ct : CaseTables) (rootName : GoString) (sInfo : structInfo)
    (sName : GoString) (index : Nat) (filedName typeStr buf : GoString)
    (ht : sInfo.TypeList.get? index = some typeStr) (hf : filedName ≠ []) :
    funcField ct rootName sInfo sName index filedName buf =
      some (buf ++ accessorText ct sName
        (if rootName = sInfo.Name then go "*" ++ sInfo.Name else sInfo.Name)
        filedName typeStr) := by
  unfold funcField
  rw [upperFirst_eq ct filedName hf, ht]
  have hstar : go " *" = go " " ++ go "*" := by decide
  by_cases hr : rootName = sInfo.Name
  · simp [hr, accessorText, hstar, List.append_assoc]
  · simp [hr, accessorText, List.append_assoc]

theorem funcStruct_eq (ct : CaseTables) (rootName : GoString) (sInfo : structInfo)
    (buf : GoString) (hwf : sInfo.WellFormed) :
    funcStruct ct rootName sInfo buf =
      some (buf ++ (funcBanner sInfo ++ accessorsText ct
        (if rootName = sInfo.Name then go "*" ++ sInfo.Name else sInfo.Name) sInfo)) := by
  obtain ⟨hn, hlen, hf⟩ := hwf
  unfold funcStruct
  rw [firstByte_eq _ hn]
  simp only [Option.pure_def, Option.bind_eq_bind, Option.some_bind]
  rw [rangeLoop_zip _ sInfo.TypeList
    (fun f t => accessorText ct (ToLower ct (sInfo.Name.take 1))
      (if rootName = sInfo.Name then go "*" ++ sInfo.Name else sInfo.Name) f t)
    (fun f => f ≠ [])
    (fun i x t buf ht hx => funcField_eq ct rootName sInfo _ i x t buf ht hx)
    sInfo.FiledList 0 _ hf (by omega)]
  simp [funcBanner, accessorsText, List.append_assoc]

theorem generateFunc_eq (ct : CaseTables) (pkgName : GoString)
    (sInfoList : List structInfo) (hpkg : pkgName ≠ [])
    (hwf : ∀ sInfo ∈ sInfoList, sInfo.WellFormed) :
    generateFunc ct none pkgName sInfoList =
      some ⟨pkgName ++ funcFileSuffix, none,
        some (fileHeader pkgName ++ (sInfoList.map (fun sInfo =>
          funcBanner sInfo ++ accessorsText ct
            (if capitalize ct pkgName = sInfo.Name then go "*" ++ sInfo.Name
              else sInfo.Name) sInfo)).flatten)⟩ := by
  unfold generateFunc
  rw [upperFirst_eq ct pkgName hpkg]
  simp only [Option.pure_def, Option.bind_eq_bind, Option.some_bind]
  rw [rangeLoop_map _ (fun sInfo => funcBanner sInfo ++ accessorsText ct
      (if capitalize ct pkgName = sInfo.Name then go "*" ++ sInfo.Name else sInfo.Name) sInfo)
    structInfo.WellFormed
    (fun _ x buf hx => funcStruct_eq ct (capitalize ct pkgName) x buf hx)
    sInfoList 0 _ hwf]
  rfl


theorem getStruct_none (sName : GoString) (l : List structInfo)
    (h : ∀ s ∈ l, s.Name ≠ sName) : getStruct sName l = none := by
  induction l with
  | nil => rfl
  | cons s l ih =>
    have hs : ¬ sName = s.Name := fun e => h s (List.mem_cons_self _ _) e.symm
    simp only [getStruct, if_neg hs]
    exact ih (fun t ht => h t (List.mem_cons_of_mem _ ht))

theorem getStruct_some (sName : GoString) (l : List structInfo)
    (h : ∃ s ∈ l, s.Name = sName) :
    ∃ rs, getStruct sName l = some rs ∧ rs ∈ l ∧ rs.Name = sName := by
  induction l with
  | nil => obtain ⟨s, hs, _⟩ := h; cases hs
  | cons s l ih =>
    by_cases hs : sName = s.Name
    · exact ⟨s, by simp only [getStruct, if_pos hs], List.mem_cons_self _ _, hs.symm⟩
    · obtain ⟨t, ht, hn⟩ := h
      have htl : t ∈ l := by
        rcases List.mem_cons.mp ht with rfl | h1
        · exact absurd hn.symm hs
        · exact h1
      obtain ⟨rs, h1, h2, h3⟩ := ih ⟨t, htl, hn⟩
      exact ⟨rs, by simp only [getStruct, if_neg hs]; exact h1,
        List.mem_cons_of_mem _ h2, h3⟩

/-! ## The generators: claims -/

set_option maxRecDepth 100000 in
/-- C5 (the code at the failing input): for the record `Foo` and a field
`xs [][]Foo`, `generateJsonReader` declares the mirror type `_fooJson`
(lower-cased record name) but gives the mirror field the type `[][]_FooJson`,
which is not a sequence of sequences of the declared mirror type. -/
theorem generateJsonReader_nested :
    generateJsonReader noCaseTables none (go "bar") nestedSchemas =
      some ⟨go "bar_json.go", none, some (go
        ("// Code generated by \"shareddata $GOFILE\"; DO NOT EDIT.\n" ++
        "package bar\n" ++
        "\n/*----- foo_json -----*/\n" ++
        "\ntype _fooJson struct \x7b\n" ++
        "\tA int `json:\"a\"`\n" ++
        "\x7d\n" ++
        "\nfunc (f _fooJson) _convert() Foo \x7b\n" ++
        "\tdata := new(Foo)\n" ++
        "\tdata.a = f.A\n" ++
        "\treturn *data\n" ++
        "\x7d\n" ++
        "\n/*----- bar_json -----*/\n" ++
        "\ntype _barJson struct \x7b\n" ++
        "\tXs [][]_FooJson `json:\"xs\"`\n" ++
        "\x7d\n" ++
        "\nfunc (b _barJson) _convert() *Bar \x7b\n" ++
        "\tdata := new(Bar)\n" ++
        "\tdata.xs = make([][]Foo, 0)\n" ++
        "\tfor _, e := range b.Xs \x7b\n" ++
        "\t\tdata.xs = append(data.xs, e._convert())\n" ++
        "\t\x7d\n" ++
        "\treturn data\n" ++
        "\x7d\n"))⟩ ∧
    getJsonType (go "[][]Foo") = go "[][]_FooJson" ∧
    getJsonType (go "[][]Foo") ≠
      go "[][]" ++ (go "_" ++ ToLower noCaseTables (go "Foo") ++ go "Json") := by
  decide


set_option maxRecDepth 100000 in
/-- C6 (the code at the failing input): for a field `xs [][]Foo` the conversion
code `generateJsonReader` emits has one loop only; it applies `_convert()` to
each inner sequence `e` rather than looping over `e` and converting its
elements. -/
theorem convertField_nested :
    convertField noCaseTables ⟨go "Bar", [go "xs"], [go "[][]Foo"], -1⟩ (go "b") 0
        (go "xs") [] =
      some (go ("\tdata.xs = make([][]Foo, 0)\n" ++
        "\tfor _, e := range b.Xs \x7b\n" ++
        "\t\tdata.xs = append(data.xs, e._convert())\n" ++
        "\t\x7d\n")) := by
  decide

/-- C7: for a package name and well-formed schemas, `generateFunc` writes,
after the file header, for each schema in list order its banner and for each
of its fields in declaration order exactly one accessor, named `Get` followed
by the capitalized field name, with the declared type as result type and a
body that returns the receiver's field. -/
theorem generateFunc_accessors (ct : CaseTables) (pkgName : GoString)
    (sInfoList : List structInfo) (hpkg : pkgName ≠ [])
    (hwf : ∀ sInfo ∈ sInfoList, sInfo.WellFormed) :
    generateFunc ct none pkgName sInfoList =
      some ⟨pkgName ++ funcFileSuffix, none,
        some (fileHeader pkgName ++ (sInfoList.map (fun sInfo =>
          funcBanner sInfo ++
          ((sInfo.FiledList.zip sInfo.TypeList).map (fun p =>
            go "\nfunc (" ++ ToLower ct (sInfo.Name.take 1) ++ go " " ++
              (if capitalize ct pkgName = sInfo.Name then go "*" ++ sInfo.Name
                else sInfo.Name) ++
              go ") Get" ++ capitalize ct p.1 ++ go "() " ++ p.2 ++ go " \x7b\n" ++
            (go "\treturn " ++ ToLower ct (sInfo.Name.take 1) ++ go "." ++ p.1 ++ go "\n") ++
            go "\x7d\n")).flatten)).flatten)⟩ :=
  generateFunc_eq ct pkgName sInfoList hpkg hwf

set_option maxRecDepth 100000 in
theorem generateFunc_accessors_witness :
    generateFunc noCaseTables none (go "shop") shopSchemas =
      some ⟨go "shop_func.go", none, some (go
        ("// Code generated by \"shareddata $GOFILE\"; DO NOT EDIT.\n" ++
        "package shop\n" ++
        "\n/*----- Shop -----*/\n" ++
        "\nfunc (s *Shop) GetId() int \x7b\n\treturn s.id\n\x7d\n" ++
        "\nfunc (s *Shop) GetName() string \x7b\n\treturn s.name\n\x7d\n" ++
        "\n/*----- Item -----*/\n" ++
        "\nfunc (i Item) GetSku() string \x7b\n\treturn i.sku\n\x7d\n" ++
        "\nfunc (i Item) GetPrice() float64 \x7b\n\treturn i.price\n\x7d\n"))⟩ :=
  (generateFunc_accessors noCaseTables (go "shop") shopSchemas (by decide)
    (by decide)).trans (by decide)

/-- C8: the accessors `generateFunc` writes for a well-formed schema have the
pointer receiver `*Name` when the schema is named as the root record (the
capitalized package name) and the value receiver `Name` when it is not. -/
theorem funcStruct_receiver (ct : CaseTables) (pkgName : GoString) (sInfo : structInfo)
    (buf : GoString) (hwf : sInfo.WellFormed) :
    (sInfo.Name = capitalize ct pkgName →
      funcStruct ct (capitalize ct pkgName) sInfo buf =
        some (buf ++ (funcBanner sInfo ++ accessorsText ct (go "*" ++ sInfo.Name) sInfo))) ∧
    (sInfo.Name ≠ capitalize ct pkgName →
      funcStruct ct (capitalize ct pkgName) sInfo buf =
        some (buf ++ (funcBanner sInfo ++ accessorsText ct sInfo.Name sInfo))) := by
  constructor
  · intro h
    rw [funcStruct_eq ct _ sInfo buf hwf, if_pos h.symm]
  · intro h
    rw [funcStruct_eq ct _ sInfo buf hwf, if_neg (fun e => h e.symm)]


set_option maxRecDepth 100000 in
theorem funcStruct_receiver_witness :
    funcStruct noCaseTables (capitalize noCaseTables (go "shop"))
        ⟨go "Shop", [go "id"], [go "int"], 0⟩ [] =
      some (go ("\n/*----- Shop -----*/\n" ++
        "\nfunc (s *Shop) GetId() int \x7b\n\treturn s.id\n\x7d\n")) ∧
    funcStruct noCaseTables (capitalize noCaseTables (go "shop"))
        ⟨go "Item", [go "sku"], [go "string"], -1⟩ [] =
      some (go ("\n/*----- Item -----*/\n" ++
        "\nfunc (i Item) GetSku() string \x7b\n\treturn i.sku\n\x7d\n")) :=
  ⟨((funcStruct_receiver noCaseTables (go "shop") ⟨go "Shop", [go "id"], [go "int"], 0⟩ []
      (by decide)).1 (by decide)).trans (by decide),
   ((funcStruct_receiver noCaseTables (go "shop") ⟨go "Item", [go "sku"], [go "string"], -1⟩
      [] (by decide)).2 (by decide)).trans (by decide)⟩

/-- C9: for a non-empty package name, when no schema is named as the root
record (the capitalized package name) `generateDataCtrl` returns the error
`missing root struct` and creates no file, whatever `os.Create` would do; when
such a schema exists, every key index is below the number of fields and the
file can be created, it returns no error and leaves the written file. -/
theorem generateDataCtrl_root (ct : CaseTables) (createErr : Option GoString)
    (pkgName : GoString) (sInfoList : List structInfo) (hpkg : pkgName ≠ []) :
    ((∀ sInfo ∈ sInfoList, sInfo.Name ≠ capitalize ct pkgName) →
      generateDataCtrl ct createErr pkgName sInfoList =
        some ⟨pkgName ++ dataCtrlFileSuffix,
          some (go "generateDataCtrl Err: missing root struct:" ++ capitalize ct pkgName),
          none⟩) ∧
    ((∃ sInfo ∈ sInfoList, sInfo.Name = capitalize ct pkgName) →
      (∀ sInfo ∈ sInfoList, sInfo.keyIndex < sInfo.FiledList.length) →
      ∃ text, generateDataCtrl ct none pkgName sInfoList =
        some ⟨pkgName ++ dataCtrlFileSuffix, none, some text⟩) := by
  constructor
  · intro h
    unfold generateDataCtrl
    rw [upperFirst_eq ct pkgName hpkg]
    simp only [Option.pure_def, Option.bind_eq_bind, Option.some_bind]
    rw [getStruct_none _ _ h]
  · intro h hkey
    obtain ⟨rs, h1, h2, _⟩ := getStruct_some _ _ h
    have hk := hkey rs h2
    unfold generateDataCtrl
    rw [upperFirst_eq ct pkgName hpkg]
    simp only [Option.pure_def, Option.bind_eq_bind, Option.some_bind]
    rw [h1]
    simp only
    unfold indexStatement
    by_cases h0 : rs.keyIndex ≥ 0
    · have hlt : rs.keyIndex.toNat < rs.FiledList.length := by omega
      rw [if_pos h0, List.get?_eq_getElem?, List.getElem?_eq_getElem hlt]
      exact ⟨_, rfl⟩
    · rw [if_neg h0]
      exact ⟨_, rfl⟩

set_option maxRecDepth 100000 in
theorem generateDataCtrl_root_witness :
    generateDataCtrl noCaseTables none (go "bar") [⟨go "Foo", [go "a"], [go "int"], -1⟩] =
      some ⟨go "bar_data_ctrl.go",
        some (go "generateDataCtrl Err: missing root struct:Bar"), none⟩ ∧
    ∃ text, generateDataCtrl noCaseTables none (go "shop") shopSchemas =
      some ⟨go "shop" ++ dataCtrlFileSuffix, none, some text⟩ :=
  ⟨((generateDataCtrl_root noCaseTables none (go "bar")
      [⟨go "Foo", [go "a"], [go "int"], -1⟩] (by decide)).1 (by decide)).trans (by decide),
   (generateDataCtrl_root noCaseTables none (go "shop") shopSchemas (by decide)).2
      (by decide) (by decide)⟩

/-- C10: for the root schema `rsInfo` that `getStruct` finds, the file
`generateDataCtrl` writes is `dataCtrlHead`, which ends inside the body of the
load loop, then the index-insertion statement, then `dataCtrlTail`, which
closes the loop; the statement keys the index by `index+1` when `keyIndex` is
negative and by the field `FiledList[keyIndex]` of the decoded record `obj`
when it is not. -/
theorem generateDataCtrl_index (ct : CaseTables) (pkgName : GoString)
    (sInfoList : List structInfo) (rsInfo : structInfo) (hpkg : pkgName ≠ [])
    (hroot : getStruct (capitalize ct pkgName) sInfoList = some rsInfo) :
    (rsInfo.keyIndex < 0 →
      generateDataCtrl ct none pkgName sInfoList =
        some ⟨pkgName ++ dataCtrlFileSuffix, none,
          some (dataCtrlHead pkgName (capitalize ct pkgName) ++
            go "\t\tds.indexs[index+1] = index\n" ++ dataCtrlTail)⟩) ∧
    (∀ key, 0 ≤ rsInfo.keyIndex → rsInfo.FiledList.get? rsInfo.keyIndex.toNat = some key →
      generateDataCtrl ct none pkgName sInfoList =
        some ⟨pkgName ++ dataCtrlFileSuffix, none,
          some (dataCtrlHead pkgName (capitalize ct pkgName) ++
            (go "\t\tds.indexs[obj." ++ key ++ go "] = index\n") ++ dataCtrlTail)⟩) := by
  constructor
  · intro hneg
    unfold generateDataCtrl
    rw [upperFirst_eq ct pkgName hpkg]
    simp only [Option.pure_def, Option.bind_eq_bind, Option.some_bind]
    rw [hroot]
    simp only
    unfold indexStatement
    rw [if_neg (by omega)]
    rfl
  · intro key h0 hkey
    unfold generateDataCtrl
    rw [upperFirst_eq ct pkgName hpkg]
    simp only [Option.pure_def, Option.bind_eq_bind, Option.some_bind]
    rw [hroot]
    simp only
    unfold indexStatement
    rw [if_pos h0, hkey]
    rfl

set_option maxRecDepth 100000 in
theorem generateDataCtrl_index_witness :
    generateDataCtrl noCaseTables none (go "shop") shopSchemas =
      some ⟨go "shop" ++ dataCtrlFileSuffix, none,
        some (dataCtrlHead (go "shop") (capitalize noCaseTables (go "shop")) ++
          (go "\t\tds.indexs[obj." ++ go "id" ++ go "] = index\n") ++ dataCtrlTail)⟩ ∧
    generateDataCtrl noCaseTables none (go "item") [⟨go "Item", [go "sku"], [go "string"], -1⟩] =
      some ⟨go "item" ++ dataCtrlFileSuffix, none,
        some (dataCtrlHead (go "item") (capitalize noCaseTables (go "item")) ++
          go "\t\tds.indexs[index+1] = index\n" ++ dataCtrlTail)⟩ :=
  ⟨(generateDataCtrl_index noCaseTables (go "shop") shopSchemas
      ⟨go "Shop", [go "id", go "name"], [go "int", go "string"], 0⟩ (by decide)
      (by decide)).2 (go "id") (by decide) (by decide),
   (generateDataCtrl_index noCaseTables (go "item")
      [⟨go "Item", [go "sku"], [go "string"], -1⟩]
      ⟨go "Item", [go "sku"], [go "string"], -1⟩ (by decide) (by decide)).1 (by decide)⟩


/-! ## The mirror generator -/

theorem maxLens_eq (sInfo : structInfo) :
    ∀ (fs : List GoString) (k a b : Nat), k + fs.length ≤ sInfo.TypeList.length →
      maxLens sInfo k fs (a, b) =
        some ((fs.map List.length).foldl max a,
          ((fs.zip (sInfo.TypeList.drop k)).map
            (fun p => (getJsonType p.2).length)).foldl max b) := by
  intro fs
  induction fs with
  | nil => intro k a b _; simp [maxLens]
  | cons f fs ih =>
    intro k a b hlen
    have hk : k < sInfo.TypeList.length := by simp only [List.length_cons] at hlen; omega
    have hget : sInfo.TypeList.get? k = some sInfo.TypeList[k] := by
      rw [List.get?_eq_getElem?]; exact List.getElem?_eq_getElem hk
    have hdrop : sInfo.TypeList.drop k = sInfo.TypeList[k] :: sInfo.TypeList.drop (k + 1) :=
      List.drop_eq_getElem_cons hk
    simp only [maxLens, hget, Option.pure_def, Option.bind_eq_bind, Option.some_bind]
    rw [ih (k + 1) _ _ (by simp only [List.length_cons] at hlen; omega), hdrop]
    have m1 : ∀ x y : Nat, (if x > y then x else y) = max y x := by
      intro x y; split_ifs with h
      · exact (Nat.max_eq_right (Nat.le_of_lt h)).symm
      · exact (Nat.max_eq_left (Nat.le_of_not_lt h)).symm
    simp only [List.map_cons, List.zip_cons_cons, List.foldl_cons, m1]

theorem foldl_max_le (l : List Nat) (a m : Nat) (ha : a ≤ m) (hl : ∀ x ∈ l, x ≤ m) :
    l.foldl max a ≤ m := by
  induction l generalizing a with
  | nil => simpa using ha
  | cons x l ih =>
    simp only [List.foldl_cons]
    exact ih _ (Nat.max_le.mpr ⟨ha, hl x (List.mem_cons_self _ _)⟩)
      (fun y hy => hl y (List.mem_cons_of_mem _ hy))

theorem jsonField_eq (ct : CaseTables) (sInfo : structInfo) (index : Nat)
    (filedName typeStr buf : GoString)
    (hw : fieldWidth sInfo ≤ fmtMaxWidth ∧ typeWidth sInfo ≤ fmtMaxWidth)
    (ht : sInfo.TypeList.get? index = some typeStr) (hf : filedName ≠ []) :
    jsonField ct sInfo (fieldWidth sInfo) (typeWidth sInfo) index filedName buf =
      some (buf ++ mirrorFieldText ct sInfo filedName typeStr) := by
  unfold jsonField
  rw [upperFirst_eq ct filedName hf, ht]
  have hno : ¬ (fmtMaxWidth < fieldWidth sInfo ∨ fmtMaxWidth < typeWidth sInfo) := by omega
  simp only [Option.pure_def, Option.bind_eq_bind, Option.some_bind, if_neg hno]
  rfl

theorem convertField_eq (ct : CaseTables) (sInfo : structInfo) (sName : GoString)
    (index : Nat) (filedName typeStr buf : GoString)
    (ht : sInfo.TypeList.get? index = some typeStr) (hf : filedName ≠ []) :
    convertField ct sInfo sName index filedName buf =
      some (buf ++ convertFieldText ct sName filedName typeStr) := by
  unfold convertField convertFieldText
  rw [upperFirst_eq ct filedName hf, ht]
  simp only [Option.pure_def, Option.bind_eq_bind, Option.some_bind]
  split_ifs <;> simp [List.append_assoc]

theorem jsonStruct_eq (ct : CaseTables) (rootName : GoString) (sInfo : structInfo)
    (buf : GoString) (hwf : sInfo.WellFormed) (hlow : ToLower ct sInfo.Name ≠ [])
    (hw : fieldWidth sInfo ≤ fmtMaxWidth ∧ typeWidth sInfo ≤ fmtMaxWidth) :
    jsonStruct ct rootName sInfo buf =
      some (buf ++ (go "\n/*----- " ++ ToLower ct sInfo.Name ++ go "_json -----*/\n" ++
        mirrorStructText ct sInfo ++ convertFuncText ct rootName sInfo)) := by
  obtain ⟨_, hlen, hf⟩ := hwf
  unfold jsonStruct
  have hm := maxLens_eq sInfo sInfo.FiledList 0 0 0 (by omega)
  rw [List.drop_zero] at hm
  rw [show maxLens sInfo 0 sInfo.FiledList (0, 0) = some (fieldWidth sInfo, typeWidth sInfo)
    from hm]
  simp only [Option.pure_def, Option.bind_eq_bind, Option.some_bind]
  rw [rangeLoop_zip _ sInfo.TypeList (fun f t => mirrorFieldText ct sInfo f t)
    (fun f => f ≠ [])
    (fun i x t buf ht hx => jsonField_eq ct sInfo i x t buf hw ht hx)
    sInfo.FiledList 0 _ hf (by omega)]
  simp only [Option.some_bind, firstByte_eq _ hlow]
  rw [rangeLoop_zip _ sInfo.TypeList
    (fun f t => convertFieldText ct ((ToLower ct sInfo.Name).take 1) f t)
    (fun f => f ≠ [])
    (fun i x t buf ht hx => convertField_eq ct sInfo _ i x t buf ht hx)
    sInfo.FiledList 0 _ hf (by omega)]
  simp only [Option.some_bind, List.drop_zero]
  unfold mirrorStructText convertFuncText
  by_cases hr : rootName = sInfo.Name <;> simp [hr, List.append_assoc]


/-- C15: for a well-formed schema whose field names and mapped types fit the
width limit of `fmt`, `generateJsonReader` writes, after the banner, the mirror
struct named `_` + lower-cased record name + `Json` with exactly one field per
schema field, in declaration order; the field of `(f, T)` has the capitalized
name of `f`, the type `getJsonType T` and the serialization key `f` lower-cased;
the conversion function follows. -/
theorem jsonStruct_mirror (ct : CaseTables) (rootName : GoString) (sInfo : structInfo)
    (buf : GoString) (hwf : sInfo.WellFormed) (hlow : ToLower ct sInfo.Name ≠ [])
    (hnames : ∀ f ∈ sInfo.FiledList, f.length ≤ fmtMaxWidth)
    (htypes : ∀ t ∈ sInfo.TypeList, (getJsonType t).length ≤ fmtMaxWidth) :
    jsonStruct ct rootName sInfo buf =
      some (buf ++ (go "\n/*----- " ++ ToLower ct sInfo.Name ++ go "_json -----*/\n" ++
        (go "\ntype _" ++ ToLower ct sInfo.Name ++ go "Json struct \x7b\n" ++
          ((sInfo.FiledList.zip sInfo.TypeList).map (fun p =>
            go "\t" ++ padRight (fieldWidth sInfo) (capitalize ct p.1) ++ go " " ++
              padRight (typeWidth sInfo) (getJsonType p.2) ++ go " `json:\"" ++
              ToLower ct p.1 ++ go "\"`\n")).flatten ++
          go "\x7d\n") ++
        convertFuncText ct rootName sInfo)) := by
  have hw : fieldWidth sInfo ≤ fmtMaxWidth ∧ typeWidth sInfo ≤ fmtMaxWidth := by
    constructor
    · apply foldl_max_le _ _ _ (Nat.zero_le _)
      intro x hx
      obtain ⟨f, hf, rfl⟩ := List.mem_map.mp hx
      exact hnames f hf
    · apply foldl_max_le _ _ _ (Nat.zero_le _)
      intro x hx
      obtain ⟨p, hp, rfl⟩ := List.mem_map.mp hx
      exact htypes p.2 (List.of_mem_zip hp).2
  exact jsonStruct_eq ct rootName sInfo buf hwf hlow hw

set_option maxRecDepth 100000 in
theorem jsonStruct_mirror_witness :
    jsonStruct noCaseTables (go "Shop")
        ⟨go "Shop", [go "id", go "name"], [go "int", go "string"], 0⟩ [] =
      some (go ("\n/*----- shop_json -----*/\n" ++
        "\ntype _shopJson struct \x7b\n" ++
        "\tId   int    `json:\"id\"`\n" ++
        "\tName string `json:\"name\"`\n" ++
        "\x7d\n" ++
        "\nfunc (s _shopJson) _convert() *Shop \x7b\n" ++
        "\tdata := new(Shop)\n" ++
        "\tdata.id = s.Id\n" ++
        "\tdata.name = s.Name\n" ++
        "\treturn data\n" ++
        "\x7d\n")) :=
  (jsonStruct_mirror noCaseTables (go "Shop")
    ⟨go "Shop", [go "id", go "name"], [go "int", go "string"], 0⟩ [] (by decide) (by decide)
    (by decide) (by decide)).trans (by decide)

/-- The text of the `Load` function `generateDataCtrl` writes for the package
`pkgName` with the index-insertion statement `stmt`: the end of the written
file. -/
theorem dataCtrl_file_split (pkgName rootName stmt : GoString) :
    ∃ pre, dataCtrlHead pkgName rootName ++ stmt ++ dataCtrlTail =
      pre ++ (go "\nfunc Load(jsonFile string) (*DataSet, error) \x7b\n" ++
        go "\tif _, err := os.Stat(jsonFile); err != nil \x7b\t\treturn nil, err\n\t\x7d\n" ++
        go "\tjsonBuf, err := os.ReadFile(jsonFile)\n\t if err != nil \x7b\t\treturn nil, err\n\t\x7d\n" ++
        go "\tjsonDatas := make([]*_" ++ pkgName ++ go "Json, 0)\n" ++
        go "\terr := json.Unmarshal(jsonBuf, &jsonDatas)\n" ++
        go "\tif err != nil \x7b\n" ++
        go "\t\treturn nil, err\n" ++
        go "\t\x7d\n" ++
        go "\tds := _newDataSet()\n" ++
        go "\tfor index, data := range jsonDatas \x7b\n" ++
        go "\t\tobj := data._convert()\n" ++
        go "\t\tds.set = append(ds.set, obj)\n" ++
        stmt ++ dataCtrlTail) := by
  refine ⟨fileHeader pkgName ++
    go "import (\n\t\"encoding/json\"\n\t\"os\"\n)\n" ++
    (go "\nconst JsonFile = \"" ++ pkgName ++ go ".json\"\n") ++
    go "\ntype DataSet struct \x7b\n" ++
    (go "\tset []*" ++ rootName ++ go " // 数据集合\n") ++
    go "\tindexs map[any]int // 索引\n" ++
    go "\x7d\n" ++
    go "\nfunc (s *DataSet) Len() int \x7b\n\treturn len(s.set)\n\x7d\n" ++
    (go "\nfunc (s *DataSet) Load(key any) *" ++ rootName ++
      go " \x7b\n\tif i, ok := s.indexs[key]; ok \x7b\n\t\treturn s.set[i]\n\t\x7d\n\treturn nil\n\x7d\n") ++
    go "\nfunc (s *DataSet) Clear() \x7b\n\ts.set = nil\n\ts.indexs = make(map[any]int, 0)\n\x7d\n" ++
    go "\nfunc _newDataSet() *DataSet \x7b\n" ++
    go "\tds := new(DataSet)\n" ++
    (go "\tds.set = make([]*" ++ rootName ++ go ", 0)\n") ++
    go "\tds.indexs = make(map[any]int)\n" ++
    go "\treturn ds\n" ++
    go "\x7d\n", ?_⟩
  simp only [dataCtrlHead, List.append_assoc]

theorem generateDataCtrl_eq (ct : CaseTables) (pkgName : GoString)
    (sInfoList : List structInfo) (rsInfo : structInfo) (stmt : GoString)
    (hpkg : pkgName ≠ [])
    (hroot : getStruct (capitalize ct pkgName) sInfoList = some rsInfo)
    (hstmt : indexStatement rsInfo = some stmt) :
    generateDataCtrl ct none pkgName sInfoList =
      some ⟨pkgName ++ dataCtrlFileSuffix, none,
        some (dataCtrlHead pkgName (capitalize ct pkgName) ++ stmt ++ dataCtrlTail)⟩ := by
  unfold generateDataCtrl
  rw [upperFirst_eq ct pkgName hpkg]
  simp only [Option.pure_def, Option.bind_eq_bind, Option.some_bind]
  rw [hroot]
  simp only
  rw [hstmt]
  rfl

set_option maxRecDepth 100000 in
/-- C17 (the code at the failing input): for the package `shopData` with root
record `ShopData`, `generateJsonReader` declares the mirror type
`_shopdataJson` while the `Load` routine written by `generateDataCtrl` decodes
into `[]*_shopDataJson`. -/
theorem mirror_name_mismatch :
    generateJsonReader noCaseTables none (go "shopData") shopDataSchemas =
      some ⟨go "shopData_json.go", none, some (go
        ("// Code generated by \"shareddata $GOFILE\"; DO NOT EDIT.\n" ++
        "package shopData\n" ++
        "\n/*----- shopdata_json -----*/\n" ++
        "\ntype _shopdataJson struct \x7b\n" ++
        "\tId int `json:\"id\"`\n" ++
        "\x7d\n" ++
        "\nfunc (s _shopdataJson) _convert() *ShopData \x7b\n" ++
        "\tdata := new(ShopData)\n" ++
        "\tdata.id = s.Id\n" ++
        "\treturn data\n" ++
        "\x7d\n"))⟩ ∧
    ∃ pre, generateDataCtrl noCaseTables none (go "shopData") shopDataSchemas =
      some ⟨go "shopData_data_ctrl.go", none, some (pre ++ go
        ("\nfunc Load(jsonFile string) (*DataSet, error) \x7b\n" ++
        "\tif _, err := os.Stat(jsonFile); err != nil \x7b\t\treturn nil, err\n\t\x7d\n" ++
        "\tjsonBuf, err := os.ReadFile(jsonFile)\n" ++
        "\t if err != nil \x7b\t\treturn nil, err\n\t\x7d\n" ++
        "\tjsonDatas := make([]*_shopDataJson, 0)\n" ++
        "\terr := json.Unmarshal(jsonBuf, &jsonDatas)\n" ++
        "\tif err != nil \x7b\n" ++
        "\t\treturn nil, err\n" ++
        "\t\x7d\n" ++
        "\tds := _newDataSet()\n" ++
        "\tfor index, data := range jsonDatas \x7b\n" ++
        "\t\tobj := data._convert()\n" ++
        "\t\tds.set = append(ds.set, obj)\n" ++
        "\t\tds.indexs[index+1] = index\n" ++
        "\t\x7d\n" ++
        "\treturn ds, nil\n" ++
        "\x7d\n"))⟩ := by
  refine ⟨by decide, ?_⟩
  obtain ⟨pre, hpre⟩ := dataCtrl_file_split (go "shopData")
    (capitalize noCaseTables (go "shopData")) (go "\t\tds.indexs[index+1] = index\n")
  refine ⟨pre, ?_⟩
  rw [generateDataCtrl_eq noCaseTables (go "shopData") shopDataSchemas
    ⟨go "ShopData", [go "id"], [go "int"], -1⟩ (go "\t\tds.indexs[index+1] = index\n")
    (by decide) (by decide) (by decide), hpre]
  have hname : go "shopData" ++ dataCtrlFileSuffix = go "shopData_data_ctrl.go" := by decide
  rw [hname]
  refine congrArg (fun t => some (GenResult.mk (go "shopData_data_ctrl.go") none
    (some (pre ++ t)))) ?_
  decide


/-! ## The schema analyzer: lemmas -/

theorem fieldStep_named (tagGet : GoString → GoString → GoString) (sInfo : structInfo)
    (name : GoString) (names : List GoString) (tag : Option GoString)
    (typ : Option GoString) :
    fieldStep tagGet sInfo ⟨name :: names, tag, typ⟩ =
      match (match tag with
        | none => some sInfo.keyIndex
        | some v =>
          (tagBody v).map (fun t =>
            if tagGet t (go "key") = go "true" then
              if sInfo.keyIndex ≥ 0 then sInfo.keyIndex
              else ((sInfo.FiledList ++ [name]).length : Int) - 1
            else sInfo.keyIndex)) with
      | none => none
      | some keyIndex =>
        match typ with
        | none => some none
        | some typeName =>
          some (some ⟨sInfo.Name, sInfo.FiledList ++ [name], sInfo.TypeList ++ [typeName],
            keyIndex⟩) := by
  unfold fieldStep
  have hk : ¬ (fileKind = Kind.Struct ∨ fileKind = Kind.Array ∨
      fileKind = Kind.UnsafePointer ∨ (name :: names).length = 0) := by
    simp [fileKind]
  simp only [if_neg hk]

theorem fieldStep_anonymous (tagGet : GoString → GoString → GoString) (sInfo : structInfo)
    (tag : Option GoString) (typ : Option GoString) :
    fieldStep tagGet sInfo ⟨[], tag, typ⟩ = some (some sInfo) := by
  unfold fieldStep
  simp

theorem fieldStep_inv (tagGet : GoString → GoString → GoString) (sInfo sInfo1 : structInfo)
    (field : Field) (h : fieldStep tagGet sInfo field = some (some sInfo1))
    (hinv : sInfo.Inv) : sInfo1.Inv := by
  obtain ⟨names, tag, typ⟩ := field
  cases names with
  | nil =>
    rw [fieldStep_anonymous] at h
    cases h
    exact hinv
  | cons name names =>
    rw [fieldStep_named] at h
    obtain ⟨hlen, hkey⟩ := hinv
    cases typ with
    | none =>
      cases tag with
      | none => simp at h
      | some v => cases hb : tagBody v <;> simp [hb] at h
    | some typeName =>
      cases tag with
      | none =>
        simp only [Option.some.injEq] at h
        subst h
        refine ⟨by simp [hlen], ?_⟩
        simp only [List.length_append, List.length_singleton]
        rcases hkey with hk | ⟨hk1, hk2⟩
        · exact Or.inl hk
        · exact Or.inr ⟨hk1, by push_cast; omega⟩
      | some v =>
        cases hb : tagBody v with
        | none => simp [hb] at h
        | some t =>
          simp only [hb, Option.map_some', Option.some.injEq] at h
          subst h
          refine ⟨by simp [hlen], ?_⟩
          simp only [List.length_append, List.length_singleton]
          split_ifs with h1 h2
          · rcases hkey with hk | ⟨hk1, hk2⟩
            · omega
            · exact Or.inr ⟨hk1, by push_cast; omega⟩
          · exact Or.inr ⟨by push_cast; omega, by push_cast; omega⟩
          · rcases hkey with hk | ⟨hk1, hk2⟩
            · exact Or.inl hk
            · exact Or.inr ⟨hk1, by push_cast; omega⟩

theorem fieldsLoop_inv (tagGet : GoString → GoString → GoString) :
    ∀ (fields : List Field) (sInfo sInfo1 : structInfo),
      fieldsLoop tagGet fields sInfo = some (some sInfo1) → sInfo.Inv → sInfo1.Inv := by
  intro fields
  induction fields with
  | nil =>
    intro sInfo sInfo1 h hinv
    simp only [fieldsLoop, Option.some.injEq] at h
    subst h
    exact hinv
  | cons f fs ih =>
    intro sInfo sInfo1 h hinv
    simp only [fieldsLoop] at h
    cases hs : fieldStep tagGet sInfo f with
    | none => simp [hs] at h
    | some r =>
      cases r with
      | none => simp [hs] at h
      | some s2 =>
        simp only [hs] at h
        exact ih s2 sInfo1 h (fieldStep_inv tagGet sInfo s2 f hs hinv)

theorem inspectTypeSpec_inv (tagGet : GoString → GoString → GoString) (ts : TypeSpec)
    (sInfo : structInfo) (h : inspectTypeSpec tagGet ts = some (some sInfo)) :
    sInfo.Inv ∧ sInfo.FiledList ≠ [] := by
  unfold inspectTypeSpec at h
  cases hst : ts.Struct with
  | none => simp [hst] at h
  | some fields =>
    simp only [hst] at h
    cases hl : fieldsLoop tagGet fields ⟨ts.Name, [], [], -1⟩ with
    | none => simp [hl] at h
    | some r =>
      cases r with
      | none => simp [hl] at h
      | some s2 =>
        simp only [hl] at h
        split_ifs at h with hpos
        · simp only [Option.some.injEq] at h
          subst h
          refine ⟨fieldsLoop_inv tagGet fields _ _ hl ⟨rfl, Or.inl rfl⟩, ?_⟩
          intro he
          rw [he] at hpos
          simp at hpos
        · simp at h

theorem inspectAll_mem (tagGet : GoString → GoString → GoString) :
    ∀ (specs : List TypeSpec) (acc res : List structInfo),
      inspectAll tagGet specs acc = some res →
      ∀ s ∈ res, s ∈ acc ∨ ∃ ts ∈ specs, inspectTypeSpec tagGet ts = some (some s) := by
  intro specs
  induction specs with
  | nil =>
    intro acc res h s hs
    simp only [inspectAll, Option.some.injEq] at h
    subst h
    exact Or.inl hs
  | cons ts rest ih =>
    intro acc res h s hs
    simp only [inspectAll] at h
    cases hi : inspectTypeSpec tagGet ts with
    | none => simp [hi] at h
    | some r =>
      cases r with
      | none =>
        simp only [hi] at h
        rcases ih acc res h s hs with h1 | ⟨t, ht, he⟩
        · exact Or.inl h1
        · exact Or.inr ⟨t, List.mem_cons_of_mem _ ht, he⟩
      | some s2 =>
        simp only [hi] at h
        rcases ih _ res h s hs with h1 | ⟨t, ht, he⟩
        · rcases List.mem_append.mp h1 with h2 | h2
          · exact Or.inl h2
          · simp only [List.mem_singleton] at h2
            subst h2
            exact Or.inr ⟨ts, List.mem_cons_self _ _, hi⟩
        · exact Or.inr ⟨t, List.mem_cons_of_mem _ ht, he⟩

theorem AnalysisStruct_mem (ct : CaseTables) (tagGet : GoString → GoString → GoString)
    (file : File) (pkgName : GoString) (res : List structInfo)
    (h : AnalysisStruct ct tagGet file = some (pkgName, res)) :
    ∀ s ∈ res, ∃ ts ∈ file.Specs, inspectTypeSpec tagGet ts = some (some s) := by
  unfold AnalysisStruct at h
  cases hu : upperFirst ct file.Name with
  | none => simp [hu] at h
  | some rootName =>
    cases hi : inspectAll tagGet file.Specs [] with
    | none => simp [hu, hi] at h
    | some l =>
      simp only [hu, hi, Option.pure_def, Option.bind_eq_bind, Option.some_bind,
        Option.some.injEq, Prod.mk.injEq] at h
      obtain ⟨_, rfl⟩ := h
      intro s hs
      rcases inspectAll_mem tagGet file.Specs [] l hi s hs with h1 | h1
      · cases h1
      · exact h1


theorem namedFields_cons_named (f : Field) (fs : List Field) (h : f.Names ≠ []) :
    namedFields (f :: fs) = f :: namedFields fs := by
  unfold namedFields
  rw [List.filter_cons_of_pos]
  cases hn : f.Names with
  | nil => exact absurd hn h
  | cons a l => rfl

theorem namedFields_cons_anonymous (f : Field) (fs : List Field) (h : f.Names = []) :
    namedFields (f :: fs) = namedFields fs := by
  unfold namedFields
  rw [List.filter_cons_of_neg]
  simp [h]

theorem firstKeyIndex_nonneg (tagGet : GoString → GoString → GoString) :
    ∀ (fs : List Field) (i : Nat),
      firstKeyIndex tagGet fs i = -1 ∨ 0 ≤ firstKeyIndex tagGet fs i := by
  intro fs
  induction fs with
  | nil => intro i; exact Or.inl rfl
  | cons f fs ih =>
    intro i
    simp only [firstKeyIndex]
    split_ifs
    · exact Or.inr (Int.ofNat_nonneg i)
    · exact ih (i + 1)

theorem fieldsLoop_eq (tagGet : GoString → GoString → GoString) :
    ∀ (fields : List Field) (sInfo : structInfo),
      (∀ f ∈ fields, (∀ v, f.Tag = some v → 2 ≤ v.length) ∧
        (f.Names ≠ [] → f.TypeStr ≠ none)) →
      (sInfo.keyIndex = -1 ∨ 0 ≤ sInfo.keyIndex) →
      fieldsLoop tagGet fields sInfo =
        some (some ⟨sInfo.Name, sInfo.FiledList ++ (namedFields fields).map fieldName,
          sInfo.TypeList ++ (namedFields fields).map fieldType,
          if sInfo.keyIndex ≥ 0 then sInfo.keyIndex
          else firstKeyIndex tagGet (namedFields fields) sInfo.FiledList.length⟩) := by
  intro fields
  induction fields with
  | nil =>
    intro sInfo _ hk
    have hk' : (if sInfo.keyIndex ≥ 0 then sInfo.keyIndex else (-1 : Int)) = sInfo.keyIndex := by
      split_ifs with h
      · rfl
      · rcases hk with h1 | h1
        · exact h1.symm
        · exact absurd h1 h
    simp [fieldsLoop, namedFields, firstKeyIndex, hk']
  | cons f fs ih =>
    intro sInfo hp hk
    have hpf := hp f (List.mem_cons_self _ _)
    have hpfs : ∀ g ∈ fs, (∀ v, g.Tag = some v → 2 ≤ v.length) ∧
        (g.Names ≠ [] → g.TypeStr ≠ none) := fun g hg => hp g (List.mem_cons_of_mem _ hg)
    obtain ⟨names, tag, typ⟩ := f
    cases names with
    | nil =>
      simp only [fieldsLoop, fieldStep_anonymous]
      rw [ih sInfo hpfs hk, namedFields_cons_anonymous _ _ rfl]
    | cons name names =>
      have hty : typ ≠ none := hpf.2 (by simp)
      obtain ⟨typeName, rfl⟩ := Option.ne_none_iff_exists'.mp hty
      rw [namedFields_cons_named _ _ (by simp)]
      simp only [fieldsLoop, fieldStep_named]
      cases tag with
      | none =>
        simp only
        rw [ih ⟨sInfo.Name, sInfo.FiledList ++ [name], sInfo.TypeList ++ [typeName], sInfo.keyIndex⟩ hpfs hk]
        simp only [List.map_cons, fieldName, fieldType, List.headD_cons, Option.getD_some,
          List.append_assoc, List.singleton_append, List.length_append, List.length_singleton,
          firstKeyIndex, isKeyField]
        simp
      | some v =>
        have hv : 2 ≤ v.length := hpf.1 v rfl
        have hb : tagBody v = some ((v.drop 1).take (v.length - 2)) := by
          unfold tagBody
          rw [if_neg (by omega)]
        simp only [hb, Option.map_some']
        by_cases hkey : tagGet ((v.drop 1).take (v.length - 2)) (go "key") = go "true"
        · have hkey1 := hkey
          simp only [List.drop_one] at hkey1
          simp only [if_pos hkey]
          by_cases h0 : sInfo.keyIndex ≥ 0
          · simp only [if_pos h0]
            rw [ih ⟨sInfo.Name, sInfo.FiledList ++ [name], sInfo.TypeList ++ [typeName], sInfo.keyIndex⟩ hpfs (Or.inr h0)]
            simp [h0, fieldName, fieldType]
          · simp only [if_neg h0]
            rw [ih ⟨sInfo.Name, sInfo.FiledList ++ [name], sInfo.TypeList ++ [typeName], ((sInfo.FiledList ++ [name]).length : Int) - 1⟩ hpfs (Or.inr (by
              simp only [List.length_append, List.length_singleton]; push_cast; omega))]
            have hpos : (0 : Int) ≤ ((sInfo.FiledList ++ [name]).length : Int) - 1 := by
              simp only [List.length_append, List.length_singleton]; push_cast; omega
            simp only [if_pos hpos, if_neg h0]
            simp [fieldName, fieldType, firstKeyIndex, isKeyField, hkey1]
        · have hkey1 := hkey
          simp only [List.drop_one] at hkey1
          simp only [if_neg hkey]
          rw [ih ⟨sInfo.Name, sInfo.FiledList ++ [name], sInfo.TypeList ++ [typeName], sInfo.keyIndex⟩ hpfs hk]
          by_cases h0 : sInfo.keyIndex ≥ 0
          · simp [h0, fieldName, fieldType]
          · simp [h0, fieldName, fieldType, firstKeyIndex, isKeyField, hkey1]


theorem inspectTypeSpec_eq (tagGet : GoString → GoString → GoString) (ts : TypeSpec)
    (hp : ts.Printable) : inspectTypeSpec tagGet ts = some (schemaOf tagGet ts) := by
  unfold inspectTypeSpec schemaOf
  cases hst : ts.Struct with
  | none => rfl
  | some fields =>
    simp only
    rw [fieldsLoop_eq tagGet fields _ (hp fields hst) (Or.inl rfl)]
    simp only [List.nil_append, List.length_nil, List.length_map]
    by_cases hn : namedFields fields = []
    · simp [hn]
    · have hpos : (namedFields fields).length > 0 := List.length_pos.mpr hn
      simp [hn, hpos]

theorem inspectAll_eq (tagGet : GoString → GoString → GoString) :
    ∀ (specs : List TypeSpec) (acc : List structInfo), (∀ ts ∈ specs, ts.Printable) →
      inspectAll tagGet specs acc = some (acc ++ specs.filterMap (schemaOf tagGet)) := by
  intro specs
  induction specs with
  | nil => intro acc _; simp [inspectAll]
  | cons ts rest ih =>
    intro acc hp
    have hrest : ∀ t ∈ rest, t.Printable := fun t ht => hp t (List.mem_cons_of_mem _ ht)
    simp only [inspectAll, inspectTypeSpec_eq tagGet ts (hp ts (List.mem_cons_self _ _))]
    cases hs : schemaOf tagGet ts with
    | none => simp only [List.filterMap_cons, hs]; exact ih acc hrest
    | some s =>
      simp only [List.filterMap_cons, hs]
      rw [ih _ hrest, List.append_assoc]
      rfl

theorem AnalysisStruct_eq (ct : CaseTables) (tagGet : GoString → GoString → GoString)
    (file : File) (hpkg : file.Name ≠ []) (hp : ∀ ts ∈ file.Specs, ts.Printable) :
    AnalysisStruct ct tagGet file =
      some (file.Name, file.Specs.filterMap (schemaOf tagGet)) := by
  unfold AnalysisStruct
  rw [upperFirst_eq ct _ hpkg, inspectAll_eq tagGet _ _ hp]
  rfl


theorem firstKeyIndex_append (tagGet : GoString → GoString → GoString) :
    ∀ (pre rest : List Field) (i : Nat), (∀ g ∈ pre, isKeyField tagGet g = false) →
      firstKeyIndex tagGet (pre ++ rest) i = firstKeyIndex tagGet rest (i + pre.length) := by
  intro pre
  induction pre with
  | nil => intro rest i _; rfl
  | cons g pre ih =>
    intro rest i h
    have hg := h g (List.mem_cons_self _ _)
    have hstep : firstKeyIndex tagGet (g :: pre ++ rest) i =
        firstKeyIndex tagGet (pre ++ rest) (i + 1) := by
      show firstKeyIndex tagGet (g :: (pre ++ rest)) i = _
      rw [firstKeyIndex, hg]
      rfl
    rw [hstep, ih rest (i + 1) (fun x hx => h x (List.mem_cons_of_mem _ hx))]
    congr 1
    simp only [List.length_cons]
    omega

/-! ## The schema analyzer: claims -/

/-- C13: for a record declaration with at least one named field whose types
can be printed, `AnalysisStruct` produces a schema whose `keyIndex` is `-1`
when no named field is tagged `key:"true"`, and else the position in the field
list of the first tagged field, whatever fields follow it. -/
theorem inspectTypeSpec_keyIndex (tagGet : GoString → GoString → GoString) (ts : TypeSpec)
    (fields : List Field) (hs : ts.Struct = some fields) (hp : ts.Printable)
    (hn : namedFields fields ≠ []) :
    ∃ sInfo, inspectTypeSpec tagGet ts = some (some sInfo) ∧
      sInfo.FiledList = (namedFields fields).map fieldName ∧
      ((∀ f ∈ namedFields fields, isKeyField tagGet f = false) → sInfo.keyIndex = -1) ∧
      (∀ pre f post, namedFields fields = pre ++ f :: post →
        (∀ g ∈ pre, isKeyField tagGet g = false) → isKeyField tagGet f = true →
        sInfo.keyIndex = pre.length) := by
  refine ⟨⟨ts.Name, (namedFields fields).map fieldName, (namedFields fields).map fieldType,
    firstKeyIndex tagGet (namedFields fields) 0⟩, ?_, rfl, ?_, ?_⟩
  · rw [inspectTypeSpec_eq tagGet ts hp]
    unfold schemaOf
    simp only [hs, if_neg hn]
  · intro h
    have := firstKeyIndex_append tagGet (namedFields fields) [] 0 h
    rw [List.append_nil] at this
    simp only [this, firstKeyIndex]
  · intro pre f post hsplit hpre hf
    simp only [hsplit]
    rw [firstKeyIndex_append tagGet pre (f :: post) 0 hpre]
    simp only [firstKeyIndex, hf, if_true]
    simp

set_option maxRecDepth 100000 in
theorem inspectTypeSpec_keyIndex_witness :
    ∃ sInfo, inspectTypeSpec keyTag twoKeysSpec = some (some sInfo) ∧
      sInfo.FiledList = [go "id", go "code"] ∧ sInfo.keyIndex = 0 := by
  obtain ⟨sInfo, h1, h2, _, h4⟩ := inspectTypeSpec_keyIndex keyTag twoKeysSpec
    [⟨[go "id"], some (go "`key:\"true\"`"), some (go "int")⟩,
     ⟨[go "code"], some (go "`key:\"true\"`"), some (go "string")⟩] rfl (by decide)
    (by decide)
  exact ⟨sInfo, h1, h2.trans (by decide),
    h4 [] ⟨[go "id"], some (go "`key:\"true\"`"), some (go "int")⟩
      [⟨[go "code"], some (go "`key:\"true\"`"), some (go "string")⟩] (by decide)
      (by decide) (by decide)⟩

/-- C14: for a parsed file whose field types can be printed, the schema list
`AnalysisStruct` returns holds, in order, one schema for each record
declaration that has at least one named field and none for the others; every
schema has a non-empty field list, which holds the names of the named fields
only. -/
theorem AnalysisStruct_schemas (ct : CaseTables) (tagGet : GoString → GoString → GoString)
    (file : File) (hpkg : file.Name ≠ []) (hp : ∀ ts ∈ file.Specs, ts.Printable) :
    AnalysisStruct ct tagGet file =
      some (file.Name, file.Specs.filterMap (schemaOf tagGet)) ∧
    (∀ ts fields, ts.Struct = some fields →
      ((schemaOf tagGet ts).isSome = true ↔ ∃ f ∈ fields, f.Names ≠ [])) ∧
    (∀ sInfo ∈ file.Specs.filterMap (schemaOf tagGet), sInfo.FiledList ≠ []) ∧
    (∀ ts fields sInfo, ts.Struct = some fields → schemaOf tagGet ts = some sInfo →
      sInfo.FiledList = (namedFields fields).map fieldName) := by
  have hnamed : ∀ fields : List Field,
      namedFields fields ≠ [] ↔ ∃ f ∈ fields, f.Names ≠ [] := by
    intro fields
    constructor
    · intro h
      obtain ⟨f, hf⟩ := List.exists_mem_of_ne_nil _ h
      unfold namedFields at hf
      obtain ⟨h1, h2⟩ := List.mem_filter.mp hf
      refine ⟨f, h1, ?_⟩
      intro he
      simp [he] at h2
    · rintro ⟨f, h1, h2⟩
      have : f ∈ namedFields fields := by
        unfold namedFields
        refine List.mem_filter.mpr ⟨h1, ?_⟩
        cases hn : f.Names with
        | nil => exact absurd hn h2
        | cons a l => rfl
      exact List.ne_nil_of_mem this
  refine ⟨AnalysisStruct_eq ct tagGet file hpkg hp, ?_, ?_, ?_⟩
  · intro ts fields hs
    unfold schemaOf
    simp only [hs]
    rw [← hnamed]
    by_cases hn : namedFields fields = [] <;> simp [hn]
  · intro sInfo hmem
    obtain ⟨ts, _, hts⟩ := List.mem_filterMap.mp hmem
    unfold schemaOf at hts
    cases hst : ts.Struct with
    | none => simp [hst] at hts
    | some fields =>
      simp only [hst] at hts
      split_ifs at hts with hn
      simp only [Option.some.injEq] at hts
      subst hts
      simpa using hn
  · intro ts fields sInfo hs hts
    unfold schemaOf at hts
    simp only [hs] at hts
    split_ifs at hts with hn
    simp only [Option.some.injEq] at hts
    subst hts
    rfl

set_option maxRecDepth 100000 in
theorem AnalysisStruct_schemas_witness :
    AnalysisStruct noCaseTables noKeyTag embeddedFile =
      some (go "shop", [⟨go "Shop", [go "id"], [go "int"], -1⟩]) :=
  (AnalysisStruct_schemas noCaseTables noKeyTag embeddedFile (by decide) (by decide)).1.trans
    (by decide)

set_option maxRecDepth 100000 in
/-- C16 (the code at the failing input): for the record `Point` with the field
line `x, y int`, the schema `AnalysisStruct` builds holds the field `x` only;
the name `y` is lost. -/
theorem AnalysisStruct_two_names :
    AnalysisStruct noCaseTables noKeyTag pointFile =
      some (go "point", [⟨go "Point", [go "x"], [go "int"], -1⟩]) := by
  decide

/-- C19: every schema in the list `AnalysisStruct` returns has as many field
types as field names and a `keyIndex` that is `-1` or the position of a field;
so `TypeList[index]` is defined for every index of a field name, and
`FiledList[keyIndex]` in `generateDataCtrl` does not panic. -/
theorem AnalysisStruct_invariant (ct : CaseTables) (tagGet : GoString → GoString → GoString)
    (file : File) (pkgName : GoString) (structInfoList : List structInfo)
    (h : AnalysisStruct ct tagGet file = some (pkgName, structInfoList)) :
    ∀ sInfo ∈ structInfoList,
      sInfo.FiledList.length = sInfo.TypeList.length ∧
      (sInfo.keyIndex = -1 ∨ (0 ≤ sInfo.keyIndex ∧ sInfo.keyIndex < sInfo.FiledList.length)) ∧
      (∀ index, index < sInfo.FiledList.length → (sInfo.TypeList.get? index).isSome = true) ∧
      (indexStatement sInfo).isSome = true := by
  intro sInfo hmem
  obtain ⟨ts, _, hts⟩ := AnalysisStruct_mem ct tagGet file pkgName structInfoList h sInfo hmem
  obtain ⟨⟨hlen, hkey⟩, _⟩ := inspectTypeSpec_inv tagGet ts sInfo hts
  refine ⟨hlen, hkey, ?_, ?_⟩
  · intro index hi
    rw [List.get?_eq_getElem?, List.getElem?_eq_getElem (by omega)]
    rfl
  · unfold indexStatement
    rcases hkey with hk | ⟨hk1, hk2⟩
    · rw [if_neg (by omega)]; rfl
    · have hlt : sInfo.keyIndex.toNat < sInfo.FiledList.length := by omega
      rw [if_pos hk1, List.get?_eq_getElem?, List.getElem?_eq_getElem hlt]
      rfl

set_option maxRecDepth 100000 in
theorem AnalysisStruct_invariant_witness :
    AnalysisStruct noCaseTables keyTag shopFile = some (go "shop", shopSchemas) ∧
    ∀ sInfo ∈ shopSchemas,
      sInfo.FiledList.length = sInfo.TypeList.length ∧
      (sInfo.keyIndex = -1 ∨ (0 ≤ sInfo.keyIndex ∧ sInfo.keyIndex < sInfo.FiledList.length)) ∧
      (∀ index, index < sInfo.FiledList.length → (sInfo.TypeList.get? index).isSome = true) ∧
      (indexStatement sInfo).isSome = true :=
  ⟨by decide,
   AnalysisStruct_invariant noCaseTables keyTag shopFile (go "shop") shopSchemas (by decide)⟩


/-! ## The emitted dataset controller: lemmas -/

theorem loadLoop_set {R K : Type} [DecidableEq K] (keyOf : Nat → R → K) :
    ∀ (objs : List R) (k : Nat) (ds : DataSet R K),
      (loadLoop keyOf k objs ds).set = ds.set ++ objs := by
  intro objs
  induction objs with
  | nil => intro k ds; simp [loadLoop]
  | cons o rest ih =>
    intro k ds
    simp only [loadLoop]
    rw [ih]
    simp [loadStep]

theorem loadLoop_index_other {R K : Type} [DecidableEq K] (keyOf : Nat → R → K) (key : K) :
    ∀ (objs : List R) (k : Nat) (ds : DataSet R K),
      (∀ j r, objs.get? j = some r → keyOf (k + j) r ≠ key) →
      (loadLoop keyOf k objs ds).indexs key = ds.indexs key := by
  intro objs
  induction objs with
  | nil => intro k ds _; rfl
  | cons o rest ih =>
    intro k ds h
    simp only [loadLoop]
    rw [ih (k + 1) _ (fun j r hj => by
      have := h (j + 1) r (by simpa using hj)
      rwa [show k + (j + 1) = k + 1 + j by omega] at this)]
    have h0 : keyOf k o ≠ key := by
      have := h 0 o rfl
      simpa using this
    simp only [loadStep]
    rw [if_neg (fun e => h0 e.symm)]

theorem loadLoop_index {R K : Type} [DecidableEq K] (keyOf : Nat → R → K) :
    ∀ (objs : List R) (k : Nat) (ds : DataSet R K) (i : Nat) (r : R),
      objs.get? i = some r →
      (∀ j q, i < j → objs.get? j = some q → keyOf (k + j) q ≠ keyOf (k + i) r) →
      (loadLoop keyOf k objs ds).indexs (keyOf (k + i) r) = some (k + i) := by
  intro objs
  induction objs with
  | nil => intro k ds i r hi; simp at hi
  | cons o rest ih =>
    intro k ds i r hi hlater
    simp only [loadLoop]
    cases i with
    | zero =>
      have ho : o = r := by simpa using hi
      subst ho
      rw [loadLoop_index_other keyOf _ rest (k + 1) _ (fun j q hj => by
        have := hlater (j + 1) q (by omega) (by simpa using hj)
        rwa [show k + (j + 1) = k + 1 + j by omega] at this)]
      simp [loadStep]
    | succ i =>
      have hi' : rest.get? i = some r := by simpa using hi
      have := ih (k + 1) (loadStep keyOf ds k o) i r hi' (fun j q hij hj => by
        have := hlater (j + 1) q (by omega) (by simpa using hj)
        rwa [show k + (j + 1) = k + 1 + j by omega,
          show k + (i + 1) = k + 1 + i by omega] at this)
      rwa [show k + 1 + i = k + (i + 1) by omega] at this

/-- The data set built by the load loop holds every converted record, and the
key of a record that no later record shares leads back to that record. -/
theorem loadAll_Load {R K : Type} [DecidableEq K] (keyOf : Nat → R → K) (objs : List R)
    (i : Nat) (r : R) (hi : objs.get? i = some r)
    (hlater : ∀ j q, i < j → objs.get? j = some q → keyOf j q ≠ keyOf i r) :
    (loadAll keyOf objs).Len = objs.length ∧
      (loadAll keyOf objs).Load (keyOf i r) = some (some r) := by
  unfold loadAll DataSet.Len DataSet.Load
  have hset := loadLoop_set keyOf objs 0 (newDataSet : DataSet R K)
  have hidx := loadLoop_index keyOf objs 0 (newDataSet : DataSet R K) i r hi
    (by simpa using hlater)
  simp only [Nat.zero_add] at hidx
  have hi' : objs[i]? = some r := by rw [← List.get?_eq_getElem?]; exact hi
  rw [hset, hidx]
  simp [newDataSet, hi']


/-! ## The emitted dataset controller: claims -/

set_option maxRecDepth 100000 in
/-- C11 (the code at the failing input): for the package `item`, whose root
record has no primary key, the file `generateDataCtrl` writes ends with a
`Load` function whose body declares `err` with `:=` in `jsonBuf, err :=
os.ReadFile(jsonFile)` and declares it again, in the same block and with no
new variable, in `err := json.Unmarshal(jsonBuf, &jsonDatas)`. -/
theorem generateDataCtrl_item_load :
    ∃ pre, generateDataCtrl noCaseTables none (go "item") itemSchemas =
      some ⟨go "item_data_ctrl.go", none, some (pre ++ go
        ("\nfunc Load(jsonFile string) (*DataSet, error) \x7b\n" ++
        "\tif _, err := os.Stat(jsonFile); err != nil \x7b\t\treturn nil, err\n\t\x7d\n" ++
        "\tjsonBuf, err := os.ReadFile(jsonFile)\n" ++
        "\t if err != nil \x7b\t\treturn nil, err\n\t\x7d\n" ++
        "\tjsonDatas := make([]*_itemJson, 0)\n" ++
        "\terr := json.Unmarshal(jsonBuf, &jsonDatas)\n" ++
        "\tif err != nil \x7b\n" ++
        "\t\treturn nil, err\n" ++
        "\t\x7d\n" ++
        "\tds := _newDataSet()\n" ++
        "\tfor index, data := range jsonDatas \x7b\n" ++
        "\t\tobj := data._convert()\n" ++
        "\t\tds.set = append(ds.set, obj)\n" ++
        "\t\tds.indexs[index+1] = index\n" ++
        "\t\x7d\n" ++
        "\treturn ds, nil\n" ++
        "\x7d\n"))⟩ := by
  obtain ⟨pre, hpre⟩ := dataCtrl_file_split (go "item")
    (capitalize noCaseTables (go "item")) (go "\t\tds.indexs[index+1] = index\n")
  refine ⟨pre, ?_⟩
  rw [generateDataCtrl_eq noCaseTables (go "item") itemSchemas
    ⟨go "Item", [go "sku"], [go "string"], -1⟩ (go "\t\tds.indexs[index+1] = index\n")
    (by decide) (by decide) (by decide), hpre]
  have hname : go "item" ++ dataCtrlFileSuffix = go "item_data_ctrl.go" := by decide
  rw [hname]
  refine congrArg (fun t => some (GenResult.mk (go "item_data_ctrl.go") none
    (some (pre ++ t)))) ?_
  decide

/-- C12 as stated fails on the emitted load loop: of two decoded records with
the same key, the lookup of the key of the first returns the second. -/
theorem loadAll_duplicate_key :
    (loadAll (fieldKey Prod.fst) [((1 : Nat), (10 : Nat)), (1, 20)]).Load
        (Prod.fst ((1 : Nat), (10 : Nat))) = some (some (1, 20)) ∧
    (loadAll (fieldKey Prod.fst) [((1 : Nat), (10 : Nat)), (1, 20)]).Load
        (Prod.fst ((1 : Nat), (10 : Nat))) ≠ some (some (1, 10)) := by
  decide

/-- C12, amended: in the data set the emitted load loop builds for a root
record with a primary key, the lookup of the key of a decoded record that no
later decoded record shares returns that record; so the round trip holds for
every record when the keys are pairwise different. -/
theorem loadAll_roundTrip {R K : Type} [DecidableEq K] (key : R → K) (objs : List R)
    (i : Nat) (r : R) (hi : objs.get? i = some r)
    (hlater : ∀ j q, i < j → objs.get? j = some q → key q ≠ key r) :
    (loadAll (fieldKey key) objs).Load (key r) = some (some r) :=
  (loadAll_Load (fieldKey key) objs i r hi hlater).2

theorem loadAll_roundTrip_witness :
    (loadAll (fieldKey Prod.fst) [((1 : Nat), (10 : Nat)), (2, 20), (1, 30)]).Load
        (Prod.fst ((2 : Nat), (20 : Nat))) = some (some (2, 20)) :=
  loadAll_roundTrip Prod.fst [((1 : Nat), (10 : Nat)), (2, 20), (1, 30)] 1 (2, 20) rfl
    (by
      intro j q hj hq
      match j, hj, hq with
      | 2, _, hq =>
        have : q = (1, 30) := by simpa using hq.symm
        subst this
        decide
      | j + 3, _, hq => simp at hq)

set_option maxRecDepth 100000 in
/-- C18 (the code at the failing input): for the package `shop`, whose root
record has the primary key `id`, the file `generateDataCtrl` writes ends with a
`Load` function whose body declares `err` twice with `:=` in the same block,
before the loop that would overwrite the index entry of a repeated key. -/
theorem generateDataCtrl_shop_load :
    ∃ pre, generateDataCtrl noCaseTables none (go "shop") shopSchemas =
      some ⟨go "shop_data_ctrl.go", none, some (pre ++ go
        ("\nfunc Load(jsonFile string) (*DataSet, error) \x7b\n" ++
        "\tif _, err := os.Stat(jsonFile); err != nil \x7b\t\treturn nil, err\n\t\x7d\n" ++
        "\tjsonBuf, err := os.ReadFile(jsonFile)\n" ++
        "\t if err != nil \x7b\t\treturn nil, err\n\t\x7d\n" ++
        "\tjsonDatas := make([]*_shopJson, 0)\n" ++
        "\terr := json.Unmarshal(jsonBuf, &jsonDatas)\n" ++
        "\tif err != nil \x7b\n" ++
        "\t\treturn nil, err\n" ++
        "\t\x7d\n" ++
        "\tds := _newDataSet()\n" ++
        "\tfor index, data := range jsonDatas \x7b\n" ++
        "\t\tobj := data._convert()\n" ++
        "\t\tds.set = append(ds.set, obj)\n" ++
        "\t\tds.indexs[obj.id] = index\n" ++
        "\t\x7d\n" ++
        "\treturn ds, nil\n" ++
        "\x7d\n"))⟩ := by
  obtain ⟨pre, hpre⟩ := dataCtrl_file_split (go "shop")
    (capitalize noCaseTables (go "shop")) (go "\t\tds.indexs[obj.id] = index\n")
  refine ⟨pre, ?_⟩
  rw [generateDataCtrl_eq noCaseTables (go "shop") shopSchemas
    ⟨go "Shop", [go "id", go "name"], [go "int", go "string"], 0⟩
    (go "\t\tds.indexs[obj.id] = index\n") (by decide) (by decide) (by decide), hpre]
  have hname : go "shop" ++ dataCtrlFileSuffix = go "shop_data_ctrl.go" := by decide
  rw [hname]
  refine congrArg (fun t => some (GenResult.mk (go "shop_data_ctrl.go") none
    (some (pre ++ t)))) ?_
  decide

/-- The loop of the emitted `Load`, read as Go code, with the key `index+1`:
after `N` records `Len` is `N` and the lookup of `i + 1` returns the record at
position `i`. -/
theorem loadAll_autoKey {R : Type} (objs : List R) (i : Nat) (r : R)
    (hi : objs.get? i = some r) :
    (loadAll autoKey objs).Len = objs.length ∧
      (loadAll autoKey objs).Load (i + 1) = some (some r) :=
  loadAll_Load autoKey objs i r hi (fun j _ hij _ => by unfold autoKey; omega)


end Shareddata
